import Mathlib

/-!
Verification development for the SysCRED fact-checking system.

The Python sources are shallowly embedded: strings are `List Char`,
floats are `ℚ`, dictionaries are association lists (insertion-ordered,
as Python dicts), and `None`-able values are `Option`.  External
collaborators (knowledge graph, NLP models, web fetching) are passed in
as explicit oracle parameters.  Components whose implementation file is
absent from the repository snapshot (the `IREngine` class) are modelled
from the specification and marked as such in their doc comments.
-/

namespace SysCred

/-- ASCII whitespace, as recognised by Python `str.split()` / `str.strip()`. -/
def isWsChar (c : Char) : Bool :=
  c == ' ' || c == '\t' || c == '\n' || c == '\r' ||
    c == Char.ofNat 11 || c == Char.ofNat 12

/-- Helper for `splitWs`: accumulates the current token. -/
def splitWsAux : List Char → List Char → List (List Char)
  | [], cur => if cur.isEmpty then [] else [cur]
  | c :: rest, cur =>
      if isWsChar c then
        if cur.isEmpty then splitWsAux rest [] else cur :: splitWsAux rest []
      else
        splitWsAux rest (cur ++ [c])

/-- Python `str.split()` with no argument: split on whitespace runs,
dropping empty tokens. -/
def splitWs (s : List Char) : List (List Char) := splitWsAux s []

/-- Python `str.strip()`: remove leading and trailing whitespace. -/
def pyStrip (s : List Char) : List Char :=
  ((s.dropWhile isWsChar).reverse.dropWhile isWsChar).reverse

/-- `leadsWith pat s` is true when `pat` is an initial segment of `s`. -/
def leadsWith : List Char → List Char → Bool
  | [], _ => true
  | _ :: _, [] => false
  | a :: as, b :: bs => a == b && leadsWith as bs

/-- Python `pat in s` on strings: substring containment. -/
def containsSub (pat : List Char) : List Char → Bool
  | [] => pat.isEmpty
  | c :: rest => leadsWith pat (c :: rest) || containsSub pat rest

/-- Strict lexicographic order on strings (Python `<` on `str`),
restricted to code points. -/
def lexLt : List Char → List Char → Bool
  | [], [] => false
  | [], _ :: _ => true
  | _ :: _, [] => false
  | a :: as, b :: bs =>
      decide (a.toNat < b.toNat) || (a == b && lexLt as bs)

/-- Decimal digit character for a digit value. -/
def digitChar (d : ℕ) : Char := Char.ofNat (48 + d)

/-- Most-significant-first decimal digits, with explicit fuel so the
recursion is structural (the fuel never runs out when it starts at `n`). -/
def natDigitsF : ℕ → ℕ → List ℕ → List ℕ
  | 0, n, acc => n :: acc
  | fuel + 1, n, acc =>
      if n < 10 then n :: acc else natDigitsF fuel (n / 10) (n % 10 :: acc)

/-- Most-significant-first decimal digits of `n`, prepended to `acc`. -/
def natDigits (n : ℕ) (acc : List ℕ) : List ℕ := natDigitsF n n acc

/-- Decimal rendering of a natural number (Python `str(n)` / `f-string`). -/
def fmtNat (n : ℕ) : List Char := (natDigits n []).map digitChar

/-- Python `int(s)` on a string of decimal digits. -/
def parseNat (s : List Char) : ℕ :=
  s.foldl (fun a c => a * 10 + (c.toNat - 48)) 0

/-- Clamp to the unit interval: `max(0.0, min(1.0, x))`. -/
def clamp01 (x : ℚ) : ℚ := max 0 (min 1 x)

/-- Round to nearest integer, ties to even (the rounding used by Python
float formatting). -/
def rndHalfEven (x : ℚ) : ℤ :=
  let fl := Rat.floor x
  let frac := x - fl
  if frac < 1/2 then fl
  else if 1/2 < frac then fl + 1
  else if fl % 2 = 0 then fl else fl + 1

/-- Zero-padded six decimal digits of `m` (for `m < 10^6`). -/
def pad6 (m : ℕ) : List Char :=
  let ds := natDigits m []
  (List.replicate (6 - ds.length) 0 ++ ds).map digitChar

/-- Python `f-string` formatting `f"{x:.6f}"` over the rational model. -/
def fmtFixed6 (x : ℚ) : List Char :=
  let n := rndHalfEven (x * 1000000)
  let sign : List Char := if n < 0 then ['-'] else []
  let m := n.natAbs
  sign ++ fmtNat (m / 1000000) ++ '.' :: pad6 (m % 1000000)

/-- Modelled from the spec: `IREngine.preprocess` (the `ir_engine.py` file
is absent from the repository snapshot).  §4.1 Text Normalizer: case-fold
and strip punctuation, applying identical rules to queries and documents. -/
def IREngine.preprocess (s : List Char) : List Char :=
  s.map (fun c => if c.isAlphanum then c.toLower else ' ')

/-- Modelled from the spec: `IREngine.calculate_bm25_score` (the
`ir_engine.py` file is absent from the repository snapshot).  §4.2 Ranking
Core: a BM25-family formula with the documented parameters k1 = 0.9,
b = 0.4; the log-idf is replaced by the rational surrogate
`(N - df + 1/2)/(df + 1/2)` so scores stay in `ℚ`.  A term absent from the
document contributes zero; an empty query scores zero. -/
def IREngine.calculate_bm25_score (queryTerms docTerms : List (List Char))
    (docLength avgDocLength : ℚ) (docFreq : List Char → ℕ)
    (corpusSize : ℕ) : ℚ :=
  let k1 : ℚ := 9/10
  let b : ℚ := 2/5
  queryTerms.foldl (fun acc t =>
    let df := docFreq t
    let tf : ℚ := docTerms.count t
    let idf : ℚ := ((corpusSize : ℚ) - df + 1/2) / ((df : ℚ) + 1/2)
    acc + idf * (tf * (k1 + 1)) / (tf + k1 * (1 - b + b * docLength / avgDocLength))) 0

/-- Drop duplicates, keeping the first occurrence of each element. -/
def dedupFirst : List (List Char) → List (List Char)
  | [] => []
  | x :: xs => x :: dedupFirst (xs.filter (fun y => ¬ y = x))
termination_by l => l.length
decreasing_by
  simp only [List.length_cons]
  exact Nat.lt_succ_of_le (List.length_filter_le _ _)

/-- Join tokens with single spaces. -/
def joinSpace : List (List Char) → List Char
  | [] => []
  | [t] => t
  | t :: ts => t ++ ' ' :: joinSpace ts

/-- Stable insert for descending order on `key`: the new element goes
after every element whose key is ≥ its own (Python `list.sort` is stable). -/
def insertDescBy {α : Type} (key : α → ℚ) (x : α) : List α → List α
  | [] => [x]
  | y :: ys => if key x ≤ key y then y :: insertDescBy key x ys else x :: y :: ys

/-- Stable sort, descending on `key` (models Python
`scores.sort(key=lambda x: x[1], reverse=True)`). -/
def sortDescBy {α : Type} (key : α → ℚ) (l : List α) : List α :=
  l.foldl (fun acc x => insertDescBy key x acc) []

/-- Modelled from the spec: `IREngine.pseudo_relevance_feedback` (the
`ir_engine.py` file is absent from the repository snapshot).  §4.3 PRF
Expander: append up to `max_terms` of the most frequent non-query terms
from the top documents; when no new terms are found, return the original
query unchanged. -/
def IREngine.pseudo_relevance_feedback (query : List Char)
    (topDocsTexts : List (List Char)) (numExpansionTerms : ℕ) : List Char :=
  let qTerms := splitWs (IREngine.preprocess query)
  let docTerms := (topDocsTexts.map (fun d => splitWs (IREngine.preprocess d))).flatten
  let fresh := docTerms.filter (fun t => ¬ t ∈ qTerms)
  let ranked := sortDescBy (fun t => (docTerms.count t : ℚ)) (dedupFirst fresh)
  let newTerms := ranked.take numExpansionTerms
  if newTerms.isEmpty then query else query ++ ' ' :: joinSpace newTerms

/-- One ranked hit, as in `ir_engine.SearchResult`. -/
structure SearchResult where
  doc_id : List Char
  score : ℚ
  rank : ℕ
deriving DecidableEq

/-- The part of `ir_engine.SearchResponse` the retriever consumes
(timing and tag fields are wall-clock metadata and are omitted). -/
structure SearchResponse where
  results : List SearchResult
  total_hits : ℕ
deriving DecidableEq

/-- The scored-and-filtered document list built by
`TRECRetriever._search_in_memory` before sorting: document frequencies
are substring counts over preprocessed texts, `avg_doc_length` is the
mean token count, and only strictly positive BM25 scores are kept, in
corpus (dict insertion) order. -/
def scoredDocs (corpus : List (List Char × List Char)) (query : List Char) :
    List (List Char × ℚ) :=
  let queryTerms := splitWs query
  let docFreq : List Char → ℕ := fun term =>
    (corpus.filter (fun d => containsSub term (IREngine.preprocess d.2))).length
  let totalLength : ℕ := (corpus.map (fun d => (splitWs (IREngine.preprocess d.2)).length)).sum
  let avgDocLength : ℚ := if corpus.isEmpty then 1 else (totalLength : ℚ) / corpus.length
  corpus.filterMap (fun d =>
    let docTerms := splitWs (IREngine.preprocess d.2)
    let score := IREngine.calculate_bm25_score queryTerms docTerms
      docTerms.length avgDocLength docFreq corpus.length
    if 0 < score then some (d.1, score) else none)

/-- `TRECRetriever._search_in_memory`: lightweight in-memory BM25 search.
The corpus is the insertion-ordered `dict` of `doc_id ↦ text`. -/
def searchInMemory (corpus : List (List Char × List Char)) (query : List Char)
    (k : ℕ) : SearchResponse :=
  if corpus.isEmpty then ⟨[], 0⟩
  else
    let topK := (sortDescBy (fun p => p.2) (scoredDocs corpus query)).take k
    let results := topK.enum.map (fun ip => SearchResult.mk ip.2.1 ip.2.2 (ip.1 + 1))
    ⟨results, results.length⟩

/-- `trec_retriever.Evidence` (display-only fields omitted). -/
structure Evidence where
  doc_id : List Char
  text : List Char
  score : ℚ
  rank : ℕ
deriving DecidableEq

/-- `trec_retriever.RetrievalResult` (wall-clock timing omitted). -/
structure RetrievalResult where
  query : List Char
  evidences : List Evidence
  total_retrieved : ℕ
  expanded_query : Option (List Char)
deriving DecidableEq

/-- The PRF-related configuration of `TRECRetriever.__init__`. -/
structure RetrieverConfig where
  prf_top_docs : ℕ
  prf_expansion_terms : ℕ
  enable_prf : Bool

/-- `TRECRetriever._get_document_text`: corpus lookup with an explicit
placeholder for missing documents (no Pyserini index in fallback mode). -/
def getDocumentText (corpus : List (List Char × List Char)) (docId : List Char) : List Char :=
  match List.lookup docId corpus with
  | some text => text
  | none => ("[Document ".toList) ++ docId ++ (" text not available]".toList)

/-- `TRECRetriever._apply_prf`. -/
def applyPrf (cfg : RetrieverConfig) (corpus : List (List Char × List Char))
    (originalQuery : List Char) (topResults : List SearchResult) : List Char :=
  let texts := topResults.map (fun r => getDocumentText corpus r.doc_id)
  IREngine.pseudo_relevance_feedback originalQuery texts cfg.prf_expansion_terms

/-- Python `k = k or self.DEFAULT_K`: `None` and `0` are falsy, so both
fall back to `DEFAULT_K = 10`. -/
def effectiveK : Option ℕ → ℕ
  | none => 10
  | some n => if n = 0 then 10 else n

/-- The `Evidence` object built for one search result inside
`retrieve_evidence` (text via `_get_document_text`). -/
def mkEvidence (corpus : List (List Char × List Char)) (r : SearchResult) : Evidence :=
  ⟨r.doc_id, getDocumentText corpus r.doc_id, r.score, r.rank⟩

/-- `TRECRetriever.retrieve_evidence` in fallback (in-memory) mode:
preprocess the claim, search, optionally expand once via PRF and
re-search when the expanded query differs, then materialize evidence. -/
def retrieve_evidence (cfg : RetrieverConfig) (corpus : List (List Char × List Char))
    (claim : List Char) (k : Option ℕ) (use_prf : Option Bool) : RetrievalResult :=
  let keff := effectiveK k
  let usePrf := use_prf.getD cfg.enable_prf
  let response := searchInMemory corpus (IREngine.preprocess claim) keff
  let step : SearchResponse × Option (List Char) :=
    if usePrf = true ∧ cfg.prf_top_docs ≤ response.results.length then
      let expanded := applyPrf cfg corpus claim (response.results.take cfg.prf_top_docs)
      if expanded ≠ claim then
        (searchInMemory corpus (IREngine.preprocess expanded) keff, some expanded)
      else (response, some expanded)
    else (response, none)
  let evidences := step.1.results.map (mkEvidence corpus)
  ⟨claim, evidences, evidences.length, step.2⟩

/-- `TRECBenchmark.run_configuration`: one run-file line
`"<topic_id> Q0 <doc_id> <rank> <score:.6f> <run_tag>"`. -/
def formatRunLine (topicId docId : List Char) (rank : ℕ) (score : ℚ)
    (runTag : List Char) : List Char :=
  topicId ++ ' ' :: 'Q' :: '0' :: ' ' ::
    (docId ++ ' ' :: (fmtNat rank ++ ' ' :: (fmtFixed6 score ++ ' ' :: runTag)))

/-- One parsed qrel entry of `TRECDataset._parse_qrel_file`. -/
structure QrelEntry where
  topic_id : List Char
  doc_id : List Char
  relevance : ℕ
deriving DecidableEq

/-- `TRECDataset._parse_qrel_file`, per line: strip, split on whitespace,
and when at least 4 fields are present read `parts[0]`, `parts[2]` and
`int(parts[3])` (topic, document, relevance).  `parseNat` models `int` on
the digit strings these files contain. -/
def parseQrelLine (line : List Char) : Option QrelEntry :=
  let parts := splitWs (pyStrip line)
  if 4 ≤ parts.length then
    some ⟨parts.getD 0 [], parts.getD 2 [], parseNat (parts.getD 3 [])⟩
  else none

/-- Backslash. -/
def bsChar : Char := Char.ofNat 92

/-- Double quote. -/
def quoteChar : Char := Char.ofNat 34

/-- Single quote. -/
def apoChar : Char := Char.ofNat 39

/-- Python `str.replace` with a single-character pattern. -/
def replaceChar (pat : Char) (rep : List Char) (s : List Char) : List Char :=
  (s.map (fun c => if c = pat then rep else [c])).flatten

/-- `GraphRAG._escape_sparql_string` (src/src/syscred/graph_rag.py):
escape backslash first, then quotes and control characters, for safe
interpolation into a SPARQL query. -/
def GraphRAG.escape_sparql_string (value : List Char) : List Char :=
  if value.isEmpty then []
  else
    let r1 := replaceChar bsChar [bsChar, bsChar] value
    let r2 := replaceChar quoteChar [bsChar, quoteChar] r1
    let r3 := replaceChar apoChar [bsChar, apoChar] r2
    let r4 := replaceChar '\n' [bsChar, 'n'] r3
    let r5 := replaceChar '\r' [bsChar, 'r'] r4
    replaceChar '\t' [bsChar, 't'] r5

/-- The per-character effect of the six sequential `str.replace` passes
of `_escape_sparql_string` (used to reason about the composition). -/
def escCharModel (c : Char) : List Char :=
  if c = bsChar then [bsChar, bsChar]
  else if c = quoteChar then [bsChar, quoteChar]
  else if c = apoChar then [bsChar, apoChar]
  else if c = '\n' then [bsChar, 'n']
  else if c = '\r' then [bsChar, 'r']
  else if c = '\t' then [bsChar, 't']
  else [c]

/-- Text of the source-history SPARQL query of
`GraphRAG._get_source_history_data` (src/src version) before the
interpolated domain. -/
def sparqlHistoryHead : List Char :=
  ("\n        PREFIX cred: <https://github.com/DominiqueLoyer/systemFactChecking#>\n        \n        SELECT ?score ?level ?timestamp\n        WHERE \x7b\n            ?info cred:informationURL ?url .\n            ?request cred:concernsInformation ?info .\n            ?report cred:isReportOf ?request .\n            ?report cred:credibilityScoreValue ?score .\n            ?report cred:assignsCredibilityLevel ?level .\n            ?report cred:completionTimestamp ?timestamp .\n            FILTER(CONTAINS(STR(?url), \"").toList

/-- Text of the same query after the interpolated domain. -/
def sparqlHistoryTail : List Char :=
  ("\"))\n        \x7d\n        ORDER BY DESC(?timestamp)\n        LIMIT 10\n        ").toList

/-- `GraphRAG._get_source_history_data` query construction (src/src
version): the domain is escaped before interpolation. -/
def GraphRAG.buildHistoryQuery (domain : List Char) : List Char :=
  sparqlHistoryHead ++ GraphRAG.escape_sparql_string domain ++ sparqlHistoryTail

/-- Text of the source-history SPARQL query of
`GraphRAG._get_source_history` in 02_Code/SysCRED_v2.1_Update before the
interpolated domain. -/
def sparqlHistoryHeadV21 : List Char :=
  ("\n        PREFIX cred: <http://www.dic9335.uqam.ca/ontologies/credibility-verification#>\n        \n        SELECT ?score ?level ?timestamp\n        WHERE \x7b\n            ?info cred:informationURL ?url .\n            ?request cred:concernsInformation ?info .\n            ?report cred:isReportOf ?request .\n            ?report cred:credibilityScoreValue ?score .\n            ?report cred:assignsCredibilityLevel ?level .\n            ?report cred:completionTimestamp ?timestamp .\n            FILTER(CONTAINS(STR(?url), \"").toList

/-- Text of the v2.1 query after the interpolated domain. -/
def sparqlHistoryTailV21 : List Char :=
  ("\"))\n        \x7d\n        ORDER BY DESC(?timestamp)\n        LIMIT 5\n        ").toList

/-- `GraphRAG._get_source_history` query construction in
02_Code/SysCRED_v2.1_Update/graph_rag.py: `query % domain` interpolates
the caller-supplied domain verbatim, with no escaping. -/
def GraphRAG.buildHistoryQueryV21 (domain : List Char) : List Char :=
  sparqlHistoryHeadV21 ++ domain ++ sparqlHistoryTailV21

/-- `GraphRAG._find_similar_claims` regex construction (src/src version):
keep keywords longer than 3 characters, escape each, and join with `|`. -/
def GraphRAG.buildRegexPattern (keywords : List (List Char)) : List Char :=
  let cleanKws := keywords.filter (fun k => 3 < k.length)
  ((cleanKws.map GraphRAG.escape_sparql_string).intersperse ['|']).flatten

/-- Scanner deciding whether a string can close a double-quoted SPARQL
literal: a backslash escapes the following character; a bare double quote
makes the string unsafe to interpolate. -/
def quoteSafeChunk : List Char → Bool
  | [] => true
  | c :: rest =>
      if c = bsChar then
        match rest with
        | [] => false
        | _ :: rest2 => quoteSafeChunk rest2
      else if c = quoteChar then false
      else quoteSafeChunk rest

/-- Result rows of the graph queries, abstracted: the knowledge graph is
an external collaborator, so its query answers are oracle functions
keyed by the inputs the code derives the query from. -/
structure GraphOracle where
  historyScores : List Char → List ℚ
  similarScores : List (List Char) → List ℚ

/-- The `count`/`avg_score` summary of `GraphRAG._get_source_history_data`. -/
structure HistoryData where
  count : ℕ
  avg_score : ℚ
deriving DecidableEq

/-- `GraphRAG._get_source_history_data`: empty domain or no rows gives
count 0 with neutral 0.5 average; otherwise count and mean of scores. -/
def GraphRAG.getSourceHistoryData (g : GraphOracle) (domain : List Char) : HistoryData :=
  if domain.isEmpty then ⟨0, 1/2⟩
  else
    let scores := g.historyScores domain
    if scores.isEmpty then ⟨0, 1/2⟩
    else ⟨scores.length, scores.sum / scores.length⟩

/-- The `scores` list of `GraphRAG._find_similar_claims`: empty keyword
list, or no keyword longer than 3 characters, yields no rows. -/
def GraphRAG.findSimilarScores (g : GraphOracle) (keywords : List (List Char)) : List ℚ :=
  if keywords.isEmpty then []
  else
    let cleanKws := keywords.filter (fun k => 3 < k.length)
    if cleanKws.isEmpty then []
    else g.similarScores cleanKws

/-- The result dictionary of `GraphRAG.compute_context_score`. -/
structure ContextScore where
  history_score : ℚ
  pattern_score : ℚ
  combined_score : ℚ
  confidence : ℚ
  has_history : Bool
  history_count : ℕ
  similar_count : ℕ
deriving DecidableEq

/-- `GraphRAG.compute_context_score`: fuse history and pattern signals
with saturating confidences (5 history points, 3 similar claims) and the
0.7/0.3 combination, falling back to a single signal or the neutral
default when data is missing. -/
def GraphRAG.compute_context_score (g : GraphOracle) (domain : List Char)
    (keywords : List (List Char)) : ContextScore :=
  let hd := GraphRAG.getSourceHistoryData g domain
  let hasHistory := decide (0 < hd.count)
  let historyScore : ℚ := if 0 < hd.count then hd.avg_score else 1/2
  let historyCount : ℕ := if 0 < hd.count then hd.count else 0
  let historyConfidence : ℚ := if 0 < hd.count then min 1 ((hd.count : ℚ) / 5) else 0
  let pat : ℚ × ℕ × ℚ :=
    if ¬ keywords.isEmpty then
      let scores := GraphRAG.findSimilarScores g keywords
      if ¬ scores.isEmpty then
        ((scores.sum / scores.length : ℚ), scores.length, min 1 ((scores.length : ℚ) / 3))
      else (1/2, 0, 0)
    else (1/2, 0, 0)
  let patternScore := pat.1
  let similarCount := pat.2.1
  let patternConfidence := pat.2.2
  if hasHistory = true ∧ 0 < similarCount then
    ⟨historyScore, patternScore, 7/10 * historyScore + 3/10 * patternScore,
      3/5 * historyConfidence + 2/5 * patternConfidence, hasHistory, historyCount, similarCount⟩
  else if hasHistory = true then
    ⟨historyScore, patternScore, historyScore, historyConfidence * (4/5),
      hasHistory, historyCount, similarCount⟩
  else if 0 < similarCount then
    ⟨historyScore, patternScore, patternScore, patternConfidence * (1/2),
      hasHistory, historyCount, similarCount⟩
  else
    ⟨historyScore, patternScore, 1/2, 0, hasHistory, historyCount, similarCount⟩

/-- `source_reputation` values produced by `fetch_external_data`. -/
inductive Reputation
  | high
  | low
  | medium
  | unknown
deriving DecidableEq

/-- The `source_analysis` sub-dictionary of `rule_based_analysis`. -/
structure SourceAnalysis where
  reputation : Reputation
  domain_age_days : Option ℤ
deriving DecidableEq

/-- The `linguistic_markers` sub-dictionary of `rule_based_analysis`. -/
structure LinguisticMarkers where
  sensationalism : ℕ
  certainty : ℕ
  doubt : ℕ
deriving DecidableEq

/-- The part of the `rule_results` dictionary read by
`calculate_overall_score`. -/
structure RuleResults where
  source_analysis : SourceAnalysis
  linguistic_markers : LinguisticMarkers
deriving DecidableEq

/-- Sentiment labels of the NLP pipeline. -/
inductive SentimentLabel
  | negative
  | positive
  | neutral
deriving DecidableEq

/-- One sentiment result: label and confidence score. -/
structure SentimentInfo where
  label : SentimentLabel
  score : ℚ
deriving DecidableEq

/-- One bias-analysis result: whether the label contains `Flagged`, and
the optional bias score. -/
structure BiasInfo where
  flagged : Bool
  score : Option ℚ
deriving DecidableEq

/-- The part of the `nlp_results` dictionary read by
`calculate_overall_score` (produced by the external NLP collaborator). -/
structure NlpResults where
  sentiment : Option SentimentInfo
  bias_analysis : Option BiasInfo
  coherence_score : Option ℚ
deriving DecidableEq

/-- Weight constants of `calculate_overall_score`. -/
def WEIGHT_REPUTATION : ℚ := 3/10

/-- Weight of the domain-age factor. -/
def WEIGHT_AGE : ℚ := 1/20

/-- Weight of the certainty-marker factor. -/
def WEIGHT_CERTAINTY : ℚ := 1/10

/-- Weight of the doubt-marker factor. -/
def WEIGHT_DOUBT : ℚ := 3/20

/-- Weight of the sensationalism factor. -/
def WEIGHT_SENSATIONALISM : ℚ := 1/10

/-- Weight of the strong-negative-sentiment factor. -/
def WEIGHT_NEGATIVE_SENTIMENT : ℚ := 1/20

/-- Weight of the bias factor. -/
def WEIGHT_BIAS : ℚ := 3/20

/-- Weight of the (simulated) coherence factor. -/
def WEIGHT_COHERENCE : ℚ := 1/20

/-- Reputation branch of `calculate_overall_score`:
`(score_adjustment, weight_sum)` increments. -/
def repDelta (r : RuleResults) : ℚ × ℚ :=
  if r.source_analysis.reputation = .high then (WEIGHT_REPUTATION, WEIGHT_REPUTATION)
  else if r.source_analysis.reputation = .low then (-WEIGHT_REPUTATION, WEIGHT_REPUTATION)
  else (0, 0)

/-- Domain-age branch of `calculate_overall_score` (`> 365*2` old,
`< 90` new, `None` skipped). -/
def ageDelta (r : RuleResults) : ℚ × ℚ :=
  match r.source_analysis.domain_age_days with
  | none => (0, 0)
  | some age =>
      if 365 * 2 < age then (WEIGHT_AGE, WEIGHT_AGE)
      else if age < 90 then (-WEIGHT_AGE, WEIGHT_AGE)
      else (0, 0)

/-- Certainty/doubt branch of `calculate_overall_score`: certainty counts
only when no doubt markers are present; both scale with the marker count. -/
def lingDelta (r : RuleResults) : ℚ × ℚ :=
  let c := r.linguistic_markers.certainty
  let d := r.linguistic_markers.doubt
  if 0 < c ∧ d = 0 then (WEIGHT_CERTAINTY * c, WEIGHT_CERTAINTY * c)
  else if 0 < d then (-(WEIGHT_DOUBT * d), WEIGHT_DOUBT * d)
  else (0, 0)

/-- Sensationalism branch of `calculate_overall_score`: penalty capped at
three markers; the penalty itself is also added to the weight sum. -/
def sensDelta (r : RuleResults) : ℚ × ℚ :=
  let s := r.linguistic_markers.sensationalism
  if 0 < s then
    let penalty := min (WEIGHT_SENSATIONALISM * s) (WEIGHT_SENSATIONALISM * 3)
    (-penalty, penalty)
  else (0, 0)

/-- Strong-negative-sentiment branch of `calculate_overall_score`
(`label == 'NEGATIVE' and score > 0.85`). -/
def sentDelta (n : NlpResults) : ℚ × ℚ :=
  match n.sentiment with
  | none => (0, 0)
  | some s =>
      if s.label = .negative ∧ 17/20 < s.score then
        (-WEIGHT_NEGATIVE_SENTIMENT, WEIGHT_NEGATIVE_SENTIMENT)
      else (0, 0)

/-- Bias branch of `calculate_overall_score`: flagged bias with a score
subtracts `WEIGHT_BIAS * ((score - 0.5) * 2)` but adds only `WEIGHT_BIAS`
to the weight sum. -/
def biasDelta (n : NlpResults) : ℚ × ℚ :=
  match n.bias_analysis with
  | none => (0, 0)
  | some b =>
      if b.flagged then
        match b.score with
        | some v => (-(WEIGHT_BIAS * ((v - 1/2) * 2)), WEIGHT_BIAS)
        | none => (0, 0)
      else (0, 0)

/-- Coherence branch of `calculate_overall_score`: a present coherence
score contributes `(c - 0.5) * WEIGHT_COHERENCE`, with the absolute value
of that adjustment added to the weight sum. -/
def cohDelta (n : NlpResults) : ℚ × ℚ :=
  match n.coherence_score with
  | none => (0, 0)
  | some c =>
      let adj := (c - 1/2) * WEIGHT_COHERENCE
      (adj, |adj|)

/-- `CredibilityVerificationSystem.calculate_overall_score`: accumulate
the signed adjustments and the weights of the branches that fire, with
`weight_sum` initialized to 1.0, then `0.5 + score_adjustment/weight_sum`
(guarded by `weight_sum > 0`), clamped to [0, 1]. -/
def calculate_overall_score (r : RuleResults) (n : NlpResults) : ℚ :=
  let score_adjustment : ℚ :=
    (repDelta r).1 + (ageDelta r).1 + (lingDelta r).1 + (sensDelta r).1 +
      (sentDelta n).1 + (biasDelta n).1 + (cohDelta n).1
  let weight_sum : ℚ :=
    1 + ((repDelta r).2 + (ageDelta r).2 + (lingDelta r).2 + (sensDelta r).2 +
      (sentDelta n).2 + (biasDelta n).2 + (cohDelta n).2)
  let final_score := if 0 < weight_sum then 1/2 + score_adjustment / weight_sum else 1/2
  max 0 (min 1 final_score)

/-- The `(signed adjustment, weight)` records of exactly the contributing
(present) signals, in the order `calculate_overall_score` examines them:
absent signals produce no record. -/
def contributionList (r : RuleResults) (n : NlpResults) : List (ℚ × ℚ) :=
  (if r.source_analysis.reputation = .high ∨ r.source_analysis.reputation = .low
    then [repDelta r] else []) ++
  (match r.source_analysis.domain_age_days with
   | none => []
   | some age => if 365 * 2 < age ∨ age < 90 then [ageDelta r] else []) ++
  (if (0 < r.linguistic_markers.certainty ∧ r.linguistic_markers.doubt = 0) ∨
      0 < r.linguistic_markers.doubt then [lingDelta r] else []) ++
  (if 0 < r.linguistic_markers.sensationalism then [sensDelta r] else []) ++
  (match n.sentiment with
   | none => []
   | some s => if s.label = .negative ∧ 17/20 < s.score then [sentDelta n] else []) ++
  (match n.bias_analysis with
   | none => []
   | some b => if b.flagged = true ∧ b.score.isSome then [biasDelta n] else []) ++
  (match n.coherence_score with
   | none => []
   | some _ => [cohDelta n])

/-- Follows the claim's words, for comparison with the source function:
final score `0.5 + Σ(adjustments)/weight_sum` clamped to [0,1], where
`weight_sum` is *exactly* the sum of the weights of the contributing
signals only, and 0.5 when that sum is zero. -/
def claimedOverallScore (r : RuleResults) (n : NlpResults) : ℚ :=
  let adjSum := ((contributionList r n).map Prod.fst).sum
  let wSum := ((contributionList r n).map Prod.snd).sum
  clamp01 (if 0 < wSum then 1/2 + adjSum / wSum else 1/2)

/-- Length of the regex match `http\S+|www\S+|https\S+` at the start of
`s`, if any: a literal `http` or `www` followed by a maximal nonempty run
of non-whitespace (the `https` alternative is subsumed by `http\S+`). -/
def urlMatchLen (s : List Char) : Option ℕ :=
  if leadsWith ("http".toList) s then
    let run := ((s.drop 4).takeWhile (fun c => ¬ isWsChar c)).length
    if 0 < run then some (4 + run) else none
  else if leadsWith ("www".toList) s then
    let run := ((s.drop 3).takeWhile (fun c => ¬ isWsChar c)).length
    if 0 < run then some (3 + run) else none
  else none

/-- Left-to-right scan of `re.sub(r'http\S+|www\S+|https\S+', '', text)`;
the fuel argument is the remaining length, and every step consumes at
least one character. -/
def removeUrlsAux : ℕ → List Char → List Char
  | 0, _ => []
  | _ + 1, [] => []
  | fuel + 1, c :: rest =>
      match urlMatchLen (c :: rest) with
      | some n => removeUrlsAux fuel ((c :: rest).drop n)
      | none => c :: removeUrlsAux fuel rest

/-- `re.sub(r'http\S+|www\S+|https\S+', '', text)`. -/
def removeUrls (s : List Char) : List Char := removeUrlsAux s.length s

/-- `re.sub(r'\s+', ' ', text)`: collapse whitespace runs to one space;
the flag records whether the previous character was whitespace. -/
def collapseWsAux : Bool → List Char → List Char
  | _, [] => []
  | prevWs, c :: rest =>
      if isWsChar c then
        if prevWs then collapseWsAux true rest else ' ' :: collapseWsAux true rest
      else c :: collapseWsAux false rest

/-- Characters kept by `re.sub(r'[^\w\s\.\?,!]', '', text)` (`\w`
restricted to its ASCII subset). -/
def keepCharFilter (c : Char) : Bool :=
  c.isAlphanum || c == '_' || isWsChar c || c == '.' || c == '?' || c == ',' || c == '!'

/-- `CredibilityVerificationSystem.preprocess`: remove URL tokens,
collapse whitespace, keep word characters and basic punctuation, then
lower-case and strip. -/
def CredibilityVerificationSystem.preprocess (text : List Char) : List Char :=
  let t1 := removeUrls text
  let t2 := collapseWsAux false t1
  let t3 := t2.filter keepCharFilter
  pyStrip (t3.map Char.toLower)

/-- Split at the first colon, returning the parts before and after it. -/
def splitFirstColon : List Char → Option (List Char × List Char)
  | [] => none
  | c :: rest =>
      if c = ':' then some ([], rest)
      else
        match splitFirstColon rest with
        | some p => some (c :: p.1, p.2)
        | none => none

/-- `is_url`: models `urlparse(text)` yielding both a scheme (leading
letter, then letters, digits, `+`, `-`, `.`, before a colon) and a
nonempty netloc (after `//`, up to `/`, `?` or `#`). -/
def is_url (s : List Char) : Bool :=
  match splitFirstColon s with
  | none => false
  | some p =>
      (match p.1 with
       | [] => false
       | c0 :: cs => c0.isAlpha && cs.all (fun c => c.isAlphanum || c == '+' || c == '-' || c == '.'))
      && leadsWith ("//".toList) p.2
      && ¬ ((p.2.drop 2).takeWhile (fun c => ¬ (c = '/' ∨ c = '?' ∨ c = '#'))).isEmpty

/-- `urlparse(text).netloc` for URLs of the shape accepted by `is_url`. -/
def netlocOf (s : List Char) : List Char :=
  match splitFirstColon s with
  | none => []
  | some p =>
      if leadsWith ("//".toList) p.2 then
        (p.2.drop 2).takeWhile (fun c => ¬ (c = '/' ∨ c = '?' ∨ c = '#'))
      else []

/-- The part of the `fetch_external_data` result read by the scoring
pipeline (fact-check list and related articles are report-only). -/
structure ExternalData where
  source_reputation : Reputation
  domain_age_days : Option ℤ
deriving DecidableEq

/-- `fetch_external_data`: simulated reputation and domain age keyed on
the netloc of URL inputs; non-URL input keeps the Unknown/None defaults. -/
def fetch_external_data (textOrUrl : List Char) : ExternalData :=
  if is_url textOrUrl then
    let domain := netlocOf textOrUrl
    if containsSub ("verified-news.com".toList) domain then ⟨.high, some 1500⟩
    else if containsSub ("hoax-site.org".toList) domain then ⟨.low, some 90⟩
    else if ¬ containsSub ("nonexistent-domain-for-test.xyz".toList) domain then
      ⟨.medium, some 730⟩
    else ⟨.unknown, none⟩
  else ⟨.unknown, none⟩

/-- The marker word lists of `rule_based_analysis`. -/
def sensationalWords : List (List Char) :=
  (["shocking", "revealed", "conspiracy", "amazing", "secret"].map String.toList)

/-- Certainty marker words. -/
def certaintyWords : List (List Char) :=
  (["verified", "authentic", "credible", "proven", "fact"].map String.toList)

/-- Doubt marker words. -/
def doubtWords : List (List Char) :=
  (["hoax", "false", "fake", "unproven", "rumor"].map String.toList)

/-- `sum(1 for word in words if word in text)`. -/
def countMarkers (words : List (List Char)) (text : List Char) : ℕ :=
  (words.filter (fun w => containsSub w text)).length

/-- `CredibilityVerificationSystem.rule_based_analysis`, restricted to
the fields `calculate_overall_score` reads (timeliness flags and
fact-check list are report-only). -/
def rule_based_analysis (text : List Char) (ext : ExternalData) : RuleResults :=
  ⟨⟨ext.source_reputation, ext.domain_age_days⟩,
    ⟨countMarkers sensationalWords text,
     countMarkers certaintyWords text,
     countMarkers doubtWords text⟩⟩

/-- A Python value passed to `verify_information`: either not a string,
or a string. -/
inductive PyInput
  | notStr
  | str (s : List Char)

/-- Outcome of `verify_information`: an error dictionary (carrying only a
tag here), or the final report with its credibility score. -/
inductive VerifyOutcome
  | error (tag : List Char)
  | report (score : ℚ)
deriving DecidableEq

/-- Whether the outcome is the error dictionary. -/
def VerifyOutcome.isError : VerifyOutcome → Bool
  | .error _ => true
  | .report _ => false

/-- `CredibilityVerificationSystem.verify_information`: validate the
input, fetch content for URLs (`fetch` models the simulated
`fetch_web_content`), preprocess, then run rule-based analysis, the NLP
collaborator (`nlp`), and the score fusion.  Each validation failure
returns the error dictionary before any score or report is computed. -/
def verify_information (fetch : List Char → Option (List Char))
    (nlp : List Char → NlpResults) (input : PyInput) : VerifyOutcome :=
  match input with
  | .notStr => .error ("input must be a non-empty string".toList)
  | .str s =>
      if (pyStrip s).isEmpty then .error ("input must be a non-empty string".toList)
      else
        let isU := is_url s
        match (if isU then fetch s else some s) with
        | none => .error ("could not retrieve URL content".toList)
        | some t =>
            let cleaned := CredibilityVerificationSystem.preprocess t
            if cleaned.isEmpty then .error ("text empty after preprocessing".toList)
            else
              let ext := fetch_external_data (if isU then s else cleaned)
              let ruleResults := rule_based_analysis cleaned ext
              let nlpResults := nlp cleaned
              .report (calculate_overall_score ruleResults nlpResults)

/-- Insert into a list ordered by score descending with ties broken by
ascending `doc_id` (the ordering the spec prescribes). -/
def insertTieAsc (x : List Char × ℚ) : List (List Char × ℚ) → List (List Char × ℚ)
  | [] => [x]
  | y :: ys =>
      if x.2 < y.2 ∨ (x.2 = y.2 ∧ lexLt y.1 x.1 = true) then y :: insertTieAsc x ys
      else x :: y :: ys

/-- Follows the spec's words (§4.2), for comparison with the source
ranker: sort by score descending, **ties broken by ascending doc_id**. -/
def specSortTieAsc (l : List (List Char × ℚ)) : List (List Char × ℚ) :=
  l.foldl (fun acc x => insertTieAsc x acc) []

/-- The ranking the spec describes for the in-memory fallback: top-k of
the tie-ascending sorted scored documents, ranks from 1. -/
def specRankedTieAsc (corpus : List (List Char × List Char)) (query : List Char)
    (k : ℕ) : List SearchResult :=
  let topK := (specSortTieAsc (scoredDocs corpus query)).take k
  topK.enum.map (fun ip => SearchResult.mk ip.2.1 ip.2.2 (ip.1 + 1))

end SysCred

namespace SysCred

theorem natDigitsF_ne_nil (fuel : ℕ) : ∀ (n : ℕ) (acc : List ℕ),
    natDigitsF fuel n acc ≠ [] := by
  induction fuel with
  | zero => intro n acc; simp [natDigitsF]
  | succ fuel ih =>
    intro n acc
    unfold natDigitsF
    split
    · simp
    · exact ih _ _

theorem natDigits_ne_nil (n : ℕ) (acc : List ℕ) : natDigits n acc ≠ [] :=
  natDigitsF_ne_nil n n acc

theorem natDigitsF_lt_ten (fuel : ℕ) : ∀ (n : ℕ) (acc : List ℕ), n ≤ fuel →
    (∀ d ∈ acc, d < 10) → ∀ d ∈ natDigitsF fuel n acc, d < 10 := by
  induction fuel with
  | zero =>
    intro n acc hn hacc d hd
    rcases List.mem_cons.mp hd with h1 | h2
    · omega
    · exact hacc d h2
  | succ fuel ih =>
    intro n acc hn hacc
    unfold natDigitsF
    split
    · rename_i h
      intro d hd
      rcases List.mem_cons.mp hd with h1 | h2
      · omega
      · exact hacc d h2
    · rename_i h
      refine ih (n / 10) _ (by omega) ?_
      intro d hd
      rcases List.mem_cons.mp hd with h1 | h2
      · subst h1; exact Nat.mod_lt _ (by omega)
      · exact hacc d h2

theorem natDigits_lt_ten (n : ℕ) (acc : List ℕ) (hacc : ∀ d ∈ acc, d < 10) :
    ∀ d ∈ natDigits n acc, d < 10 :=
  natDigitsF_lt_ten n n acc (le_refl n) hacc

theorem digitChar_toNat (d : ℕ) (hd : d < 10) : (digitChar d).toNat = 48 + d := by
  interval_cases d <;> rfl

theorem isWsChar_digitChar (d : ℕ) (hd : d < 10) : isWsChar (digitChar d) = false := by
  interval_cases d <;> rfl

theorem foldl_digitChar (acc : List ℕ) (a : ℕ) (hacc : ∀ d ∈ acc, d < 10) :
    (acc.map digitChar).foldl (fun a c => a * 10 + (c.toNat - 48)) a =
      acc.foldl (fun a d => a * 10 + d) a := by
  induction acc generalizing a with
  | nil => rfl
  | cons d rest ih =>
    simp only [List.map_cons, List.foldl_cons]
    rw [digitChar_toNat d (hacc d (List.mem_cons_self d rest))]
    rw [show 48 + d - 48 = d by omega]
    exact ih _ (fun x hx => hacc x (List.mem_cons_of_mem d hx))

theorem parseNat_natDigitsF (fuel : ℕ) : ∀ (n : ℕ) (acc : List ℕ), n ≤ fuel →
    (∀ d ∈ acc, d < 10) → n < 10 ∨ 10 ≤ n →
    parseNat ((natDigitsF fuel n acc).map digitChar) =
      acc.foldl (fun a d => a * 10 + d) n := by
  induction fuel with
  | zero =>
    intro n acc hn hacc _
    have hn0 : n = 0 := by omega
    subst hn0
    simp only [natDigitsF, List.map_cons, parseNat, List.foldl_cons]
    rw [digitChar_toNat 0 (by omega)]
    simpa using foldl_digitChar acc (0 * 10 + (48 + 0 - 48)) hacc
  | succ fuel ih =>
    intro n acc hn hacc _
    unfold natDigitsF
    split
    · rename_i h
      simp only [List.map_cons, parseNat, List.foldl_cons]
      rw [digitChar_toNat n h, show 48 + n - 48 = n by omega]
      simpa using foldl_digitChar acc (0 * 10 + n) hacc
    · rename_i h
      rw [ih (n / 10) _ (by omega)
        (by intro d hd
            rcases List.mem_cons.mp hd with h1 | h2
            · subst h1; exact Nat.mod_lt _ (by omega)
            · exact hacc d h2)
        (by omega)]
      simp only [List.foldl_cons]
      have : n / 10 * 10 + n % 10 = n := by omega
      rw [this]

theorem parseNat_natDigits (n : ℕ) (acc : List ℕ) (hacc : ∀ d ∈ acc, d < 10) :
    parseNat ((natDigits n acc).map digitChar) =
      acc.foldl (fun a d => a * 10 + d) n :=
  parseNat_natDigitsF n n acc (le_refl n) hacc (by omega)

/-- `int(str(n)) = n` for the decimal rendering. -/
theorem parseNat_fmtNat (n : ℕ) : parseNat (fmtNat n) = n := by
  have := parseNat_natDigits n [] (by simp)
  simpa [fmtNat] using this

theorem fmtNat_ne_nil (n : ℕ) : fmtNat n ≠ [] := by
  simp only [fmtNat, ne_eq, List.map_eq_nil_iff]
  exact natDigits_ne_nil n []

theorem fmtNat_no_ws (n : ℕ) : ∀ c ∈ fmtNat n, isWsChar c = false := by
  intro c hc
  simp only [fmtNat, List.mem_map] at hc
  obtain ⟨d, hd, rfl⟩ := hc
  exact isWsChar_digitChar d (natDigits_lt_ten n [] (by simp) d hd)

theorem splitWsAux_token (tok : List Char) (htok : ∀ c ∈ tok, isWsChar c = false) :
    ∀ cur rest, splitWsAux (tok ++ ' ' :: rest) cur =
      if (cur ++ tok).isEmpty then splitWsAux rest []
      else (cur ++ tok) :: splitWsAux rest [] := by
  induction tok with
  | nil =>
    intro cur rest
    simp [splitWsAux, isWsChar]
  | cons c tk ih =>
    intro cur rest
    have hc : isWsChar c = false := htok c (List.mem_cons_self c tk)
    have htk : ∀ x ∈ tk, isWsChar x = false :=
      fun x hx => htok x (List.mem_cons_of_mem c hx)
    simp only [List.cons_append, splitWsAux, hc, Bool.false_eq_true, if_false]
    rw [List.append_eq, ih htk (cur ++ [c]) rest]
    simp

theorem splitWsAux_final (tok : List Char) (htok : ∀ c ∈ tok, isWsChar c = false) :
    ∀ cur, splitWsAux tok cur =
      if (cur ++ tok).isEmpty then [] else [cur ++ tok] := by
  induction tok with
  | nil => intro cur; simp [splitWsAux]
  | cons c tk ih =>
    intro cur
    have hc : isWsChar c = false := htok c (List.mem_cons_self c tk)
    have htk : ∀ x ∈ tk, isWsChar x = false :=
      fun x hx => htok x (List.mem_cons_of_mem c hx)
    simp only [splitWsAux, hc, Bool.false_eq_true, if_false]
    rw [ih htk (cur ++ [c])]
    simp

theorem splitWsAux_ws_only (ws : List Char) (hws : ∀ c ∈ ws, isWsChar c = true) :
    ∀ cur, splitWsAux ws cur = if cur.isEmpty then [] else [cur] := by
  induction ws with
  | nil => intro cur; simp [splitWsAux]
  | cons c tl ih =>
    intro cur
    have hc : isWsChar c = true := hws c (List.mem_cons_self c tl)
    have htl : ∀ x ∈ tl, isWsChar x = true :=
      fun x hx => hws x (List.mem_cons_of_mem c hx)
    simp only [splitWsAux, hc, if_true]
    rw [ih htl []]
    by_cases h : cur.isEmpty <;> simp [h]

theorem splitWsAux_append_ws (l ws : List Char) (hws : ∀ c ∈ ws, isWsChar c = true) :
    ∀ cur, splitWsAux (l ++ ws) cur = splitWsAux l cur := by
  induction l with
  | nil =>
    intro cur
    rw [List.nil_append, splitWsAux_ws_only ws hws cur]
    simp [splitWsAux]
  | cons c tl ih =>
    intro cur
    simp only [List.cons_append, splitWsAux]
    by_cases h : isWsChar c
    · simp only [h, if_true]
      by_cases h2 : cur.isEmpty <;> simp [h2, ih]
    · simp only [h, Bool.false_eq_true, if_false]
      exact ih _

theorem splitWsAux_dropWhile (l : List Char) :
    splitWsAux (l.dropWhile isWsChar) [] = splitWsAux l [] := by
  induction l with
  | nil => rfl
  | cons c tl ih =>
    rw [List.dropWhile_cons]
    by_cases h : isWsChar c
    · simp only [h, if_true]
      rw [ih]
      simp [splitWsAux, h]
    · simp [h]

/-- Python `line.strip().split()` agrees with `line.split()`. -/
theorem splitWs_pyStrip (l : List Char) : splitWs (pyStrip l) = splitWs l := by
  unfold splitWs pyStrip
  set l1 := l.dropWhile isWsChar with hl1
  have hdecomp : l1 = (l1.reverse.dropWhile isWsChar).reverse ++
      (l1.reverse.takeWhile isWsChar).reverse := by
    have : l1.reverse = l1.reverse.takeWhile isWsChar ++ l1.reverse.dropWhile isWsChar :=
      (List.takeWhile_append_dropWhile (p := isWsChar) (l := l1.reverse)).symm
    calc l1 = l1.reverse.reverse := (List.reverse_reverse l1).symm
    _ = (l1.reverse.takeWhile isWsChar ++ l1.reverse.dropWhile isWsChar).reverse := by rw [← this]
    _ = _ := by rw [List.reverse_append]
  have hws : ∀ c ∈ (l1.reverse.takeWhile isWsChar).reverse, isWsChar c = true := by
    intro c hc
    rw [List.mem_reverse] at hc
    exact List.mem_takeWhile_imp hc
  calc splitWsAux (l1.reverse.dropWhile isWsChar).reverse []
      = splitWsAux ((l1.reverse.dropWhile isWsChar).reverse ++
          (l1.reverse.takeWhile isWsChar).reverse) [] :=
        (splitWsAux_append_ws _ _ hws []).symm
    _ = splitWsAux l1 [] := by rw [← hdecomp]
    _ = splitWsAux l [] := by rw [hl1]; exact splitWsAux_dropWhile l

theorem mem_insertDescBy {α : Type} (key : α → ℚ) (x a : α) (l : List α) :
    a ∈ insertDescBy key x l ↔ a = x ∨ a ∈ l := by
  induction l with
  | nil => simp [insertDescBy]
  | cons y ys ih =>
    unfold insertDescBy
    by_cases hxy : key x ≤ key y
    · simp only [hxy, if_true, List.mem_cons, ih]
      tauto
    · simp only [hxy, if_false, List.mem_cons]

theorem insertDescBy_pairwise {α : Type} (key : α → ℚ) (x : α) (l : List α)
    (h : l.Pairwise (fun a b => key b ≤ key a)) :
    (insertDescBy key x l).Pairwise (fun a b => key b ≤ key a) := by
  induction l with
  | nil => simp [insertDescBy]
  | cons y ys ih =>
    rw [List.pairwise_cons] at h
    obtain ⟨hy, hys⟩ := h
    unfold insertDescBy
    by_cases hxy : key x ≤ key y
    · simp only [hxy, if_true]
      rw [List.pairwise_cons]
      refine ⟨?_, ih hys⟩
      intro z hz
      rcases (mem_insertDescBy key x z ys).mp hz with rfl | hz'
      · exact hxy
      · exact hy z hz'
    · simp only [hxy, if_false]
      rw [List.pairwise_cons]
      refine ⟨?_, List.pairwise_cons.mpr ⟨hy, hys⟩⟩
      intro z hz
      rcases List.mem_cons.mp hz with rfl | hz'
      · exact (lt_of_not_le hxy).le
      · exact le_trans (hy z hz') (lt_of_not_le hxy).le

theorem filter_insertDescBy {α : Type} (key : α → ℚ) (x : α) (s : ℚ) (l : List α)
    (h : l.Pairwise (fun a b => key b ≤ key a)) :
    (insertDescBy key x l).filter (fun a => decide (key a = s)) =
      l.filter (fun a => decide (key a = s)) ++ (if key x = s then [x] else []) := by
  induction l with
  | nil =>
    by_cases hxs : key x = s <;> simp [insertDescBy, hxs]
  | cons y ys ih =>
    rw [List.pairwise_cons] at h
    obtain ⟨hy, hys⟩ := h
    unfold insertDescBy
    by_cases hxy : key x ≤ key y
    · simp only [hxy, if_true, List.filter_cons]
      rw [ih hys]
      by_cases hyss : key y = s <;> simp [hyss]
    · have hyx : key y < key x := lt_of_not_le hxy
      simp only [hxy, if_false]
      by_cases hxs : key x = s
      · have hnil : (y :: ys).filter (fun a => decide (key a = s)) = [] := by
          rw [List.filter_eq_nil_iff]
          intro z hz
          simp only [decide_eq_true_eq]
          intro hzs
          have hzy : key z ≤ key y := by
            rcases List.mem_cons.mp hz with rfl | hz'
            · exact le_refl _
            · exact hy z hz'
          have hlt : key z < key x := lt_of_le_of_lt hzy hyx
          rw [hzs, ← hxs] at hlt
          exact lt_irrefl _ hlt
        rw [List.filter_cons, hnil]
        simp [hxs]
      · rw [List.filter_cons]
        simp [hxs]

theorem sortLoop_pairwise {α : Type} (key : α → ℚ) (l : List α) :
    ∀ acc, acc.Pairwise (fun a b => key b ≤ key a) →
      (l.foldl (fun acc x => insertDescBy key x acc) acc).Pairwise
        (fun a b => key b ≤ key a) := by
  induction l with
  | nil => intro acc h; simpa using h
  | cons x xs ih =>
    intro acc h
    rw [List.foldl_cons]
    exact ih _ (insertDescBy_pairwise key x acc h)

theorem sortLoop_filter {α : Type} (key : α → ℚ) (s : ℚ) (l : List α) :
    ∀ acc, acc.Pairwise (fun a b => key b ≤ key a) →
      (l.foldl (fun acc x => insertDescBy key x acc) acc).filter
          (fun a => decide (key a = s)) =
        acc.filter (fun a => decide (key a = s)) ++
          l.filter (fun a => decide (key a = s)) := by
  induction l with
  | nil => intro acc _; simp
  | cons x xs ih =>
    intro acc h
    rw [List.foldl_cons, ih _ (insertDescBy_pairwise key x acc h),
      filter_insertDescBy key x s acc h, List.filter_cons]
    by_cases hxs : key x = s <;> simp [hxs]

theorem sortLoop_mem {α : Type} (key : α → ℚ) (l : List α) :
    ∀ acc a, a ∈ l.foldl (fun acc x => insertDescBy key x acc) acc ↔
      a ∈ acc ∨ a ∈ l := by
  induction l with
  | nil => intro acc a; simp
  | cons x xs ih =>
    intro acc a
    rw [List.foldl_cons, ih, mem_insertDescBy]
    simp only [List.mem_cons]
    tauto

theorem sortDescBy_pairwise {α : Type} (key : α → ℚ) (l : List α) :
    (sortDescBy key l).Pairwise (fun a b => key b ≤ key a) :=
  sortLoop_pairwise key l [] (by simp)

/-- Stability of the descending sort: within one key value, the sorted
list keeps the original relative order. -/
theorem sortDescBy_filter {α : Type} (key : α → ℚ) (l : List α) (s : ℚ) :
    (sortDescBy key l).filter (fun a => decide (key a = s)) =
      l.filter (fun a => decide (key a = s)) := by
  have := sortLoop_filter key s l [] (by simp)
  simpa [sortDescBy] using this

theorem mem_sortDescBy {α : Type} (key : α → ℚ) (l : List α) (a : α) :
    a ∈ sortDescBy key l ↔ a ∈ l := by
  have := sortLoop_mem key l [] a
  simpa [sortDescBy] using this

theorem searchInMemory_results_eq (corpus : List (List Char × List Char))
    (query : List Char) (k : ℕ) :
    (searchInMemory corpus query k).results =
      ((sortDescBy (fun p => p.2) (scoredDocs corpus query)).take k).enum.map
        (fun ip => SearchResult.mk ip.2.1 ip.2.2 (ip.1 + 1)) := by
  unfold searchInMemory
  by_cases h : corpus.isEmpty
  · rw [List.isEmpty_iff] at h
    subst h
    simp [scoredDocs, sortDescBy]
  · simp [h]

theorem searchInMemory_map_pair (corpus : List (List Char × List Char))
    (query : List Char) (k : ℕ) :
    (searchInMemory corpus query k).results.map (fun r => (r.doc_id, r.score)) =
      (sortDescBy (fun p => p.2) (scoredDocs corpus query)).take k := by
  rw [searchInMemory_results_eq, List.map_map]
  have hc : ((fun r : SearchResult => (r.doc_id, r.score)) ∘
      fun ip : ℕ × (List Char × ℚ) => SearchResult.mk ip.2.1 ip.2.2 (ip.1 + 1)) =
      Prod.snd := funext fun ip => rfl
  rw [hc, List.enum_map_snd]

theorem searchInMemory_map_score (corpus : List (List Char × List Char))
    (query : List Char) (k : ℕ) :
    (searchInMemory corpus query k).results.map (fun r => r.score) =
      ((sortDescBy (fun p => p.2) (scoredDocs corpus query)).take k).map
        (fun p => p.2) := by
  have h := searchInMemory_map_pair corpus query k
  have : (searchInMemory corpus query k).results.map (fun r => r.score) =
      ((searchInMemory corpus query k).results.map (fun r => (r.doc_id, r.score))).map
        (fun p => p.2) := by
    rw [List.map_map]; rfl
  rw [this, h]

theorem searchInMemory_map_rank (corpus : List (List Char × List Char))
    (query : List Char) (k : ℕ) :
    (searchInMemory corpus query k).results.map (fun r => r.rank) =
      List.range' 1 (searchInMemory corpus query k).results.length := by
  rw [searchInMemory_results_eq, List.map_map, List.length_map, List.enum_length]
  have hc : ((fun r : SearchResult => r.rank) ∘
      fun ip : ℕ × (List Char × ℚ) => SearchResult.mk ip.2.1 ip.2.2 (ip.1 + 1)) =
      (fun ip : ℕ × (List Char × ℚ) => ip.1 + 1) := funext fun ip => rfl
  rw [hc]
  set tk := (sortDescBy (fun p => p.2) (scoredDocs corpus query)).take k
  have : (fun ip : ℕ × (List Char × ℚ) => ip.1 + 1) =
      ((fun i => i + 1) ∘ Prod.fst) := funext fun ip => rfl
  rw [this, ← List.map_map, List.enum_map_fst, List.range'_eq_map_range]
  refine List.map_congr_left ?_
  intro i _
  omega

theorem searchInMemory_length_le (corpus : List (List Char × List Char))
    (query : List Char) (k : ℕ) :
    (searchInMemory corpus query k).results.length ≤ k := by
  rw [searchInMemory_results_eq, List.length_map, List.enum_length]
  exact List.length_take_le _ _

theorem searchInMemory_scores_sorted (corpus : List (List Char × List Char))
    (query : List Char) (k : ℕ) :
    ((searchInMemory corpus query k).results.map (fun r => r.score)).Pairwise
      (fun a b => b ≤ a) := by
  rw [searchInMemory_map_score]
  rw [List.pairwise_map]
  exact ((sortDescBy_pairwise (fun p : List Char × ℚ => p.2) _).sublist
    (List.take_sublist _ _))

theorem scoredDocs_pos (corpus : List (List Char × List Char)) (query : List Char) :
    ∀ p ∈ scoredDocs corpus query, 0 < p.2 := by
  intro p hp
  simp only [scoredDocs, List.mem_filterMap] at hp
  obtain ⟨d, _, hfd⟩ := hp
  split at hfd
  all_goals split at hfd
  all_goals
    first
      | (rename_i hpos
         injection hfd with h2
         subst h2
         exact hpos)
      | exact absurd hfd (by simp)

theorem searchInMemory_scores_pos (corpus : List (List Char × List Char))
    (query : List Char) (k : ℕ) :
    ∀ r ∈ (searchInMemory corpus query k).results, 0 < r.score := by
  intro r hr
  have hmem : r.score ∈ (searchInMemory corpus query k).results.map (fun r => r.score) :=
    List.mem_map_of_mem _ hr
  rw [searchInMemory_map_score] at hmem
  rw [List.mem_map] at hmem
  obtain ⟨p, hp, hps⟩ := hmem
  have hp2 : p ∈ sortDescBy (fun p : List Char × ℚ => p.2) (scoredDocs corpus query) :=
    List.mem_of_mem_take hp
  rw [mem_sortDescBy] at hp2
  rw [← hps]
  exact scoredDocs_pos corpus query p hp2

theorem retrieve_evidence_total_eq (cfg : RetrieverConfig)
    (corpus : List (List Char × List Char)) (claim : List Char) (k : Option ℕ)
    (up : Option Bool) :
    (retrieve_evidence cfg corpus claim k up).total_retrieved =
      (retrieve_evidence cfg corpus claim k up).evidences.length := rfl

theorem retrieve_evidence_query_eq (cfg : RetrieverConfig)
    (corpus : List (List Char × List Char)) (claim : List Char) (k : Option ℕ)
    (up : Option Bool) :
    (retrieve_evidence cfg corpus claim k up).query = claim := rfl

theorem retrieve_evidence_cases (cfg : RetrieverConfig)
    (corpus : List (List Char × List Char)) (claim : List Char) (k : Option ℕ)
    (up : Option Bool) :
    ∃ q : List Char,
      (retrieve_evidence cfg corpus claim k up).evidences =
        (searchInMemory corpus q (effectiveK k)).results.map (mkEvidence corpus) := by
  unfold retrieve_evidence
  dsimp only
  split
  · split
    · exact ⟨_, rfl⟩
    · exact ⟨_, rfl⟩
  · exact ⟨_, rfl⟩

theorem retrieve_evidence_no_prf (cfg : RetrieverConfig)
    (corpus : List (List Char × List Char)) (claim : List Char) (k : Option ℕ)
    (up : Option Bool)
    (h : ¬ (up.getD cfg.enable_prf = true ∧ cfg.prf_top_docs ≤
      (searchInMemory corpus (IREngine.preprocess claim) (effectiveK k)).results.length)) :
    (retrieve_evidence cfg corpus claim k up).evidences =
      (searchInMemory corpus (IREngine.preprocess claim) (effectiveK k)).results.map
        (mkEvidence corpus) ∧
    (retrieve_evidence cfg corpus claim k up).expanded_query = none := by
  unfold retrieve_evidence
  dsimp only
  rw [if_neg h]
  exact ⟨rfl, rfl⟩

theorem retrieve_evidence_prf_noop (cfg : RetrieverConfig)
    (corpus : List (List Char × List Char)) (claim : List Char) (k : Option ℕ)
    (up : Option Bool)
    (h : up.getD cfg.enable_prf = true ∧ cfg.prf_top_docs ≤
      (searchInMemory corpus (IREngine.preprocess claim) (effectiveK k)).results.length)
    (hnoop : applyPrf cfg corpus claim
      ((searchInMemory corpus (IREngine.preprocess claim) (effectiveK k)).results.take
        cfg.prf_top_docs) = claim) :
    (retrieve_evidence cfg corpus claim k up).evidences =
      (searchInMemory corpus (IREngine.preprocess claim) (effectiveK k)).results.map
        (mkEvidence corpus) ∧
    (retrieve_evidence cfg corpus claim k up).expanded_query = some claim := by
  unfold retrieve_evidence
  dsimp only
  rw [if_pos h, hnoop, if_neg (by simp)]
  exact ⟨rfl, rfl⟩

theorem retrieve_evidence_prf_changed (cfg : RetrieverConfig)
    (corpus : List (List Char × List Char)) (claim : List Char) (k : Option ℕ)
    (up : Option Bool)
    (h : up.getD cfg.enable_prf = true ∧ cfg.prf_top_docs ≤
      (searchInMemory corpus (IREngine.preprocess claim) (effectiveK k)).results.length)
    (hch : applyPrf cfg corpus claim
      ((searchInMemory corpus (IREngine.preprocess claim) (effectiveK k)).results.take
        cfg.prf_top_docs) ≠ claim) :
    (retrieve_evidence cfg corpus claim k up).evidences =
      (searchInMemory corpus
        (IREngine.preprocess (applyPrf cfg corpus claim
          ((searchInMemory corpus (IREngine.preprocess claim) (effectiveK k)).results.take
            cfg.prf_top_docs)))
        (effectiveK k)).results.map (mkEvidence corpus) ∧
    (retrieve_evidence cfg corpus claim k up).expanded_query =
      some (applyPrf cfg corpus claim
        ((searchInMemory corpus (IREngine.preprocess claim) (effectiveK k)).results.take
          cfg.prf_top_docs)) := by
  unfold retrieve_evidence
  dsimp only
  rw [if_pos h, if_pos hch]
  exact ⟨rfl, rfl⟩

/-- C5 (amended): for every configuration, corpus, claim, `k` and PRF
choice, the fallback `retrieve_evidence` result satisfies
`len(evidences) == total_retrieved ≤ k_eff`, where `k_eff` is the
effective k after Python's `k or DEFAULT_K` defaulting (`None` and `0`
become 10); the evidence ranks are the contiguous integers 1, 2, …
strictly increasing, and the scores are non-increasing across increasing
rank.  The original claim's bound `total_retrieved ≤ k` fails only at
`k = 0`, where the code substitutes the default 10. -/
theorem retrieve_evidence_invariants (cfg : RetrieverConfig)
    (corpus : List (List Char × List Char)) (claim : List Char) (k : Option ℕ)
    (up : Option Bool) :
    (retrieve_evidence cfg corpus claim k up).evidences.length =
      (retrieve_evidence cfg corpus claim k up).total_retrieved ∧
    (retrieve_evidence cfg corpus claim k up).total_retrieved ≤ effectiveK k ∧
    (retrieve_evidence cfg corpus claim k up).evidences.map (fun e => e.rank) =
      List.range' 1 (retrieve_evidence cfg corpus claim k up).evidences.length ∧
    ((retrieve_evidence cfg corpus claim k up).evidences.map (fun e => e.score)).Pairwise
      (fun a b => b ≤ a) := by
  obtain ⟨q, hq⟩ := retrieve_evidence_cases cfg corpus claim k up
  refine ⟨rfl, ?_, ?_, ?_⟩
  · rw [retrieve_evidence_total_eq, hq, List.length_map]
    exact searchInMemory_length_le corpus q (effectiveK k)
  · rw [hq, List.map_map, List.length_map]
    exact searchInMemory_map_rank corpus q (effectiveK k)
  · rw [hq, List.map_map]
    exact searchInMemory_scores_sorted corpus q (effectiveK k)

/-- C5 counterexample: with `k = 0` the claimed invariant
`total_retrieved ≤ k` fails — Python's `k or DEFAULT_K` coerces 0 to 10,
and a one-document corpus matching the claim yields one result. -/
theorem retrieve_evidence_k_zero_violates :
    ¬ ((retrieve_evidence ⟨3, 10, false⟩ [(['A'], "apple".toList)]
        ("apple".toList) (some 0) (some false)).total_retrieved ≤ 0) := by
  with_unfolding_all decide

/-- C2 (amended): the fallback ranker returns the top-k of the scored
documents sorted by score descending, with ties kept in corpus insertion
order (Python's stable sort); being a pure function of the corpus, query
and k, re-running the same query against the unchanged corpus yields
identical output.  The spec's tie-break by ascending doc_id is *not*
performed. -/
theorem searchInMemory_sorted_stable (corpus : List (List Char × List Char))
    (query : List Char) (k : ℕ) :
    (searchInMemory corpus query k).results.map (fun r => (r.doc_id, r.score)) =
      (sortDescBy (fun p => p.2) (scoredDocs corpus query)).take k ∧
    ((searchInMemory corpus query k).results.map (fun r => r.score)).Pairwise
      (fun a b => b ≤ a) ∧
    ∀ s : ℚ, (sortDescBy (fun p => p.2) (scoredDocs corpus query)).filter
        (fun p => decide (p.2 = s)) =
      (scoredDocs corpus query).filter (fun p => decide (p.2 = s)) :=
  ⟨searchInMemory_map_pair corpus query k,
   searchInMemory_scores_sorted corpus query k,
   fun s => sortDescBy_filter (fun p => p.2) (scoredDocs corpus query) s⟩

/-- C2 counterexample: two documents with identical text (hence exactly
tied BM25 scores) inserted in descending doc_id order come back in
corpus order B, A — not in the ascending doc_id order A, B the claim
prescribes — so the code's ranking differs from the spec's tie-ascending
ranking at this input. -/
theorem searchInMemory_tie_not_ascending :
    (scoredDocs [(['B'], "apple".toList), (['A'], "apple".toList)]
        ("apple".toList)).map (fun p => p.2) = [1/5, 1/5] ∧
    ((searchInMemory [(['B'], "apple".toList), (['A'], "apple".toList)]
        ("apple".toList) 2).results.map (fun r => r.doc_id)) = [['B'], ['A']] ∧
    ((specRankedTieAsc [(['B'], "apple".toList), (['A'], "apple".toList)]
        ("apple".toList) 2).map (fun r => r.doc_id)) = [['A'], ['B']] ∧
    (searchInMemory [(['B'], "apple".toList), (['A'], "apple".toList)]
        ("apple".toList) 2).results ≠
      specRankedTieAsc [(['B'], "apple".toList), (['A'], "apple".toList)]
        ("apple".toList) 2 := by
  with_unfolding_all decide

theorem scoredDocs_empty_query (corpus : List (List Char × List Char)) :
    scoredDocs corpus [] = [] := by
  unfold scoredDocs
  rw [List.filterMap_eq_nil_iff]
  intro d _
  exact if_neg (lt_irrefl (0 : ℚ))

theorem prf_nil (q : List Char) (n : ℕ) :
    IREngine.pseudo_relevance_feedback q [] n = q := by
  unfold IREngine.pseudo_relevance_feedback
  simp [dedupFirst, sortDescBy]

theorem applyPrf_nil (cfg : RetrieverConfig) (corpus : List (List Char × List Char))
    (claim : List Char) : applyPrf cfg corpus claim [] = claim := by
  unfold applyPrf
  rw [List.map_nil]
  exact prf_nil claim cfg.prf_expansion_terms

theorem retrieve_evidence_empty_of_results_nil (cfg : RetrieverConfig)
    (corpus : List (List Char × List Char)) (claim : List Char) (k : Option ℕ)
    (up : Option Bool)
    (h : (searchInMemory corpus (IREngine.preprocess claim) (effectiveK k)).results = []) :
    (retrieve_evidence cfg corpus claim k up).total_retrieved = 0 := by
  by_cases hc : up.getD cfg.enable_prf = true ∧ cfg.prf_top_docs ≤
      (searchInMemory corpus (IREngine.preprocess claim) (effectiveK k)).results.length
  · have hnoop : applyPrf cfg corpus claim
        ((searchInMemory corpus (IREngine.preprocess claim) (effectiveK k)).results.take
          cfg.prf_top_docs) = claim := by
      rw [h, List.take_nil]
      exact applyPrf_nil cfg corpus claim
    have hr := retrieve_evidence_prf_noop cfg corpus claim k up hc hnoop
    rw [retrieve_evidence_total_eq, hr.1, h]
    rfl
  · have hr := retrieve_evidence_no_prf cfg corpus claim k up hc
    rw [retrieve_evidence_total_eq, hr.1, h]
    rfl

/-- C7: every hit returned by the in-memory ranker has strictly positive
BM25 score (documents scoring exactly zero are excluded even when they
fall within k), and both an empty corpus and an empty claim yield an
empty `RetrievalResult` with `total_retrieved = 0` instead of an error. -/
theorem inMemory_zero_excluded_and_empty_ok :
    (∀ (corpus : List (List Char × List Char)) (query : List Char) (k : ℕ),
      ∀ r ∈ (searchInMemory corpus query k).results, 0 < r.score ∧ r.score ≠ 0) ∧
    (∀ (cfg : RetrieverConfig) (claim : List Char) (k : Option ℕ) (up : Option Bool),
      (retrieve_evidence cfg [] claim k up).total_retrieved = 0) ∧
    (∀ (cfg : RetrieverConfig) (corpus : List (List Char × List Char)) (k : Option ℕ)
        (up : Option Bool),
      (retrieve_evidence cfg corpus [] k up).total_retrieved = 0) := by
  refine ⟨?_, ?_, ?_⟩
  · intro corpus query k r hr
    have hpos := searchInMemory_scores_pos corpus query k r hr
    exact ⟨hpos, ne_of_gt hpos⟩
  · intro cfg claim k up
    exact retrieve_evidence_empty_of_results_nil cfg [] claim k up rfl
  · intro cfg corpus k up
    refine retrieve_evidence_empty_of_results_nil cfg corpus [] k up ?_
    rw [searchInMemory_results_eq]
    have h2 : scoredDocs corpus (IREngine.preprocess []) = [] :=
      scoredDocs_empty_query corpus
    rw [h2]
    simp [sortDescBy]

/-- Witness for C7 at concrete inputs: the two-document tie corpus gives
a first hit with positive score 1/5, and the empty-corpus and
empty-claim calls both return zero results. -/
theorem inMemory_zero_excluded_and_empty_ok_witness :
    (0 < (1/5 : ℚ) ∧ (1/5 : ℚ) ≠ 0) ∧
    (retrieve_evidence ⟨3, 10, true⟩ [] ("apple".toList) (some 5) none).total_retrieved = 0 ∧
    (retrieve_evidence ⟨3, 10, true⟩ [(['A'], "apple".toList)] [] (some 5)
      none).total_retrieved = 0 := by
  refine ⟨?_, ?_, ?_⟩
  · exact inMemory_zero_excluded_and_empty_ok.1
      [(['B'], "apple".toList), (['A'], "apple".toList)] ("apple".toList) 2
      ⟨['B'], 1/5, 1⟩ (by with_unfolding_all decide)
  · exact inMemory_zero_excluded_and_empty_ok.2.1 ⟨3, 10, true⟩ ("apple".toList)
      (some 5) none
  · exact inMemory_zero_excluded_and_empty_ok.2.2 ⟨3, 10, true⟩
      [(['A'], "apple".toList)] (some 5) none

theorem retrievalResultExt (a b : RetrievalResult) (h1 : a.query = b.query)
    (h2 : a.evidences = b.evidences) (h3 : a.total_retrieved = b.total_retrieved)
    (h4 : a.expanded_query = b.expanded_query) : a = b := by
  cases a
  cases b
  simp_all

/-- C6: PRF in `retrieve_evidence` runs at most one expansion round and
never recurses.  (i) With fewer initial results than `prf_top_docs` the
PRF-enabled call is identical to the PRF-disabled call (expansion is not
even attempted); (ii) when the expansion is a no-op (the expanded query
equals the claim) the ranking and the query are unchanged from the
PRF-disabled call; (iii) when the expanded query differs, the result is
exactly the single re-ranking of that expanded query — no further
expansion is applied to it. -/
theorem prf_single_round (cfg : RetrieverConfig)
    (corpus : List (List Char × List Char)) (claim : List Char) (k : Option ℕ) :
    ((searchInMemory corpus (IREngine.preprocess claim) (effectiveK k)).results.length <
        cfg.prf_top_docs →
      retrieve_evidence cfg corpus claim k (some true) =
        retrieve_evidence cfg corpus claim k (some false)) ∧
    (applyPrf cfg corpus claim
        ((searchInMemory corpus (IREngine.preprocess claim) (effectiveK k)).results.take
          cfg.prf_top_docs) = claim →
      (retrieve_evidence cfg corpus claim k (some true)).evidences =
        (retrieve_evidence cfg corpus claim k (some false)).evidences ∧
      (retrieve_evidence cfg corpus claim k (some true)).query = claim) ∧
    (cfg.prf_top_docs ≤
        (searchInMemory corpus (IREngine.preprocess claim) (effectiveK k)).results.length →
      applyPrf cfg corpus claim
        ((searchInMemory corpus (IREngine.preprocess claim) (effectiveK k)).results.take
          cfg.prf_top_docs) ≠ claim →
      (retrieve_evidence cfg corpus claim k (some true)).evidences =
        (searchInMemory corpus
          (IREngine.preprocess (applyPrf cfg corpus claim
            ((searchInMemory corpus
              (IREngine.preprocess claim) (effectiveK k)).results.take cfg.prf_top_docs)))
          (effectiveK k)).results.map (mkEvidence corpus)) := by
  refine ⟨?_, ?_, ?_⟩
  · intro hlt
    have hcf : ¬ ((some false).getD cfg.enable_prf = true ∧ cfg.prf_top_docs ≤
        (searchInMemory corpus (IREngine.preprocess claim) (effectiveK k)).results.length) := by
      simp
    have hct : ¬ ((some true).getD cfg.enable_prf = true ∧ cfg.prf_top_docs ≤
        (searchInMemory corpus (IREngine.preprocess claim) (effectiveK k)).results.length) := by
      simp only [Option.getD_some, true_and]
      omega
    have e1 := retrieve_evidence_no_prf cfg corpus claim k (some true) hct
    have e2 := retrieve_evidence_no_prf cfg corpus claim k (some false) hcf
    refine retrievalResultExt _ _ rfl (e1.1.trans e2.1.symm) ?_ (e1.2.trans e2.2.symm)
    rw [retrieve_evidence_total_eq, retrieve_evidence_total_eq, e1.1, e2.1]
  · intro hnoop
    by_cases hle : cfg.prf_top_docs ≤
        (searchInMemory corpus (IREngine.preprocess claim) (effectiveK k)).results.length
    · have e1 := retrieve_evidence_prf_noop cfg corpus claim k (some true)
        ⟨by simp, hle⟩ hnoop
      have e2 := retrieve_evidence_no_prf cfg corpus claim k (some false) (by simp)
      exact ⟨e1.1.trans e2.1.symm, rfl⟩
    · have e1 := retrieve_evidence_no_prf cfg corpus claim k (some true)
        (by simp only [Option.getD_some, true_and]; exact hle)
      have e2 := retrieve_evidence_no_prf cfg corpus claim k (some false) (by simp)
      exact ⟨e1.1.trans e2.1.symm, rfl⟩
  · intro hle hch
    exact (retrieve_evidence_prf_changed cfg corpus claim k (some true)
      ⟨by simp, hle⟩ hch).1

/-- Witness for C6 at a concrete input: a one-document corpus whose only
document repeats the query term, so PRF is attempted (threshold 1) but
finds no new term; the PRF run returns the same evidence list and query
as the non-PRF run. -/
theorem prf_single_round_witness :
    (retrieve_evidence ⟨1, 10, true⟩ [(['A'], "apple".toList)] ("apple".toList)
        (some 2) (some true)).evidences =
      (retrieve_evidence ⟨1, 10, true⟩ [(['A'], "apple".toList)] ("apple".toList)
        (some 2) (some false)).evidences ∧
    (retrieve_evidence ⟨1, 10, true⟩ [(['A'], "apple".toList)] ("apple".toList)
        (some 2) (some true)).query = "apple".toList :=
  (prf_single_round ⟨1, 10, true⟩ [(['A'], "apple".toList)] ("apple".toList)
    (some 2)).2.1 (by with_unfolding_all decide)

/-- C10: the returned `RetrievalResult.query` always equals the original
claim text, and whenever PRF is attempted (`use_prf` effective and enough
initial results) `expanded_query` is set — even for a no-op expansion,
where it equals the original claim text. -/
theorem prf_expanded_query_fields (cfg : RetrieverConfig)
    (corpus : List (List Char × List Char)) (claim : List Char) (k : Option ℕ)
    (up : Option Bool) :
    (retrieve_evidence cfg corpus claim k up).query = claim ∧
    (up.getD cfg.enable_prf = true →
      cfg.prf_top_docs ≤
        (searchInMemory corpus (IREngine.preprocess claim) (effectiveK k)).results.length →
      ((retrieve_evidence cfg corpus claim k up).expanded_query.isSome = true ∧
        (applyPrf cfg corpus claim
            ((searchInMemory corpus (IREngine.preprocess claim) (effectiveK k)).results.take
              cfg.prf_top_docs) = claim →
          (retrieve_evidence cfg corpus claim k up).expanded_query = some claim))) := by
  refine ⟨rfl, ?_⟩
  intro hup hle
  by_cases hnoop : applyPrf cfg corpus claim
      ((searchInMemory corpus (IREngine.preprocess claim) (effectiveK k)).results.take
        cfg.prf_top_docs) = claim
  · have e := retrieve_evidence_prf_noop cfg corpus claim k up ⟨hup, hle⟩ hnoop
    rw [e.2, hnoop]
    exact ⟨rfl, fun _ => rfl⟩
  · have e := retrieve_evidence_prf_changed cfg corpus claim k up ⟨hup, hle⟩ hnoop
    rw [e.2]
    exact ⟨rfl, fun h => absurd h hnoop⟩

/-- Witness for C10 at a concrete input: PRF attempted on a one-document
corpus with a no-op expansion; `expanded_query` comes back as the
original claim and `query` is the original claim. -/
theorem prf_expanded_query_fields_witness :
    (retrieve_evidence ⟨1, 10, true⟩ [(['A'], "apple".toList)] ("apple".toList)
        (some 2) (some true)).query = "apple".toList ∧
    (retrieve_evidence ⟨1, 10, true⟩ [(['A'], "apple".toList)] ("apple".toList)
        (some 2) (some true)).expanded_query = some ("apple".toList) := by
  refine ⟨(prf_expanded_query_fields ⟨1, 10, true⟩ [(['A'], "apple".toList)]
    ("apple".toList) (some 2) (some true)).1, ?_⟩
  exact ((prf_expanded_query_fields ⟨1, 10, true⟩ [(['A'], "apple".toList)]
    ("apple".toList) (some 2) (some true)).2 rfl (by with_unfolding_all decide)).2
    (by with_unfolding_all decide)

theorem repSeg_sum (r : RuleResults) :
    (((if r.source_analysis.reputation = .high ∨ r.source_analysis.reputation = .low
        then [repDelta r] else []).map Prod.fst).sum = (repDelta r).1) ∧
    (((if r.source_analysis.reputation = .high ∨ r.source_analysis.reputation = .low
        then [repDelta r] else []).map Prod.snd).sum = (repDelta r).2) := by
  by_cases h : r.source_analysis.reputation = .high ∨ r.source_analysis.reputation = .low
  · rw [if_pos h]
    simp
  · push_neg at h
    have hz : repDelta r = (0, 0) := by
      unfold repDelta
      rw [if_neg h.1, if_neg h.2]
    rw [if_neg (by push_neg; exact h), hz]
    simp

theorem ageSeg_sum (r : RuleResults) :
    (((match r.source_analysis.domain_age_days with
       | none => []
       | some age => if 365 * 2 < age ∨ age < 90 then [ageDelta r] else []).map
        Prod.fst).sum = (ageDelta r).1) ∧
    (((match r.source_analysis.domain_age_days with
       | none => []
       | some age => if 365 * 2 < age ∨ age < 90 then [ageDelta r] else []).map
        Prod.snd).sum = (ageDelta r).2) := by
  rcases hage : r.source_analysis.domain_age_days with _ | age
  · have hz : ageDelta r = (0, 0) := by unfold ageDelta; rw [hage]
    rw [hz]
    simp
  · show ((if 365 * 2 < age ∨ age < 90 then [ageDelta r] else []).map Prod.fst).sum =
        (ageDelta r).1 ∧
      ((if 365 * 2 < age ∨ age < 90 then [ageDelta r] else []).map Prod.snd).sum =
        (ageDelta r).2
    by_cases h : 365 * 2 < age ∨ age < 90
    · rw [if_pos h]
      simp
    · have hz : ageDelta r = (0, 0) := by
        unfold ageDelta
        rw [hage]
        show (if 365 * 2 < age then (WEIGHT_AGE, WEIGHT_AGE)
          else if age < 90 then (-WEIGHT_AGE, WEIGHT_AGE) else ((0 : ℚ), (0 : ℚ))) = (0, 0)
        rw [if_neg (by omega), if_neg (by omega)]
      rw [if_neg h, hz]
      simp

theorem lingSeg_sum (r : RuleResults) :
    (((if (0 < r.linguistic_markers.certainty ∧ r.linguistic_markers.doubt = 0) ∨
        0 < r.linguistic_markers.doubt then [lingDelta r] else []).map Prod.fst).sum =
      (lingDelta r).1) ∧
    (((if (0 < r.linguistic_markers.certainty ∧ r.linguistic_markers.doubt = 0) ∨
        0 < r.linguistic_markers.doubt then [lingDelta r] else []).map Prod.snd).sum =
      (lingDelta r).2) := by
  by_cases h : (0 < r.linguistic_markers.certainty ∧ r.linguistic_markers.doubt = 0) ∨
      0 < r.linguistic_markers.doubt
  · rw [if_pos h]
    simp
  · have hd0 : r.linguistic_markers.doubt = 0 := by omega
    have hc0 : r.linguistic_markers.certainty = 0 := by
      by_contra hc
      exact h (Or.inl ⟨by omega, hd0⟩)
    have hz : lingDelta r = (0, 0) := by
      unfold lingDelta
      show (if 0 < r.linguistic_markers.certainty ∧ r.linguistic_markers.doubt = 0
          then (WEIGHT_CERTAINTY * r.linguistic_markers.certainty,
            WEIGHT_CERTAINTY * r.linguistic_markers.certainty)
          else if 0 < r.linguistic_markers.doubt
          then (-(WEIGHT_DOUBT * r.linguistic_markers.doubt),
            WEIGHT_DOUBT * r.linguistic_markers.doubt)
          else ((0 : ℚ), (0 : ℚ))) = (0, 0)
      rw [hc0, hd0]
      norm_num
    rw [if_neg h, hz]
    simp

theorem sensSeg_sum (r : RuleResults) :
    (((if 0 < r.linguistic_markers.sensationalism then [sensDelta r] else []).map
        Prod.fst).sum = (sensDelta r).1) ∧
    (((if 0 < r.linguistic_markers.sensationalism then [sensDelta r] else []).map
        Prod.snd).sum = (sensDelta r).2) := by
  by_cases h : 0 < r.linguistic_markers.sensationalism
  · rw [if_pos h]
    simp
  · have hz : sensDelta r = (0, 0) := by
      unfold sensDelta
      show (if 0 < r.linguistic_markers.sensationalism
          then (-(min (WEIGHT_SENSATIONALISM * r.linguistic_markers.sensationalism)
            (WEIGHT_SENSATIONALISM * 3)),
            min (WEIGHT_SENSATIONALISM * r.linguistic_markers.sensationalism)
            (WEIGHT_SENSATIONALISM * 3))
          else ((0 : ℚ), (0 : ℚ))) = (0, 0)
      rw [if_neg h]
    rw [if_neg h, hz]
    simp

theorem sentSeg_sum (n : NlpResults) :
    (((match n.sentiment with
       | none => []
       | some s => if s.label = SentimentLabel.negative ∧ 17/20 < s.score
          then [sentDelta n] else []).map Prod.fst).sum = (sentDelta n).1) ∧
    (((match n.sentiment with
       | none => []
       | some s => if s.label = SentimentLabel.negative ∧ 17/20 < s.score
          then [sentDelta n] else []).map Prod.snd).sum = (sentDelta n).2) := by
  rcases hs : n.sentiment with _ | s
  · have hz : sentDelta n = (0, 0) := by unfold sentDelta; rw [hs]
    rw [hz]
    simp
  · show ((if s.label = SentimentLabel.negative ∧ 17/20 < s.score
          then [sentDelta n] else []).map Prod.fst).sum = (sentDelta n).1 ∧
      ((if s.label = SentimentLabel.negative ∧ 17/20 < s.score
          then [sentDelta n] else []).map Prod.snd).sum = (sentDelta n).2
    by_cases h : s.label = SentimentLabel.negative ∧ 17/20 < s.score
    · rw [if_pos h]
      simp
    · have hz : sentDelta n = (0, 0) := by
        unfold sentDelta
        rw [hs]
        show (if s.label = SentimentLabel.negative ∧ 17/20 < s.score
            then (-WEIGHT_NEGATIVE_SENTIMENT, WEIGHT_NEGATIVE_SENTIMENT)
            else ((0 : ℚ), (0 : ℚ))) = (0, 0)
        exact if_neg h
      rw [if_neg h, hz]
      simp

theorem biasSeg_sum (n : NlpResults) :
    (((match n.bias_analysis with
       | none => []
       | some b => if b.flagged = true ∧ b.score.isSome then [biasDelta n]
          else []).map Prod.fst).sum = (biasDelta n).1) ∧
    (((match n.bias_analysis with
       | none => []
       | some b => if b.flagged = true ∧ b.score.isSome then [biasDelta n]
          else []).map Prod.snd).sum = (biasDelta n).2) := by
  rcases hb : n.bias_analysis with _ | b
  · have hz : biasDelta n = (0, 0) := by unfold biasDelta; rw [hb]
    rw [hz]
    simp
  · show ((if b.flagged = true ∧ b.score.isSome then [biasDelta n] else []).map
          Prod.fst).sum = (biasDelta n).1 ∧
      ((if b.flagged = true ∧ b.score.isSome then [biasDelta n] else []).map
          Prod.snd).sum = (biasDelta n).2
    by_cases h : b.flagged = true ∧ b.score.isSome
    · rw [if_pos h]
      simp
    · have hz : biasDelta n = (0, 0) := by
        unfold biasDelta
        rw [hb]
        show (if b.flagged = true
            then (match b.score with
              | some v => (-(WEIGHT_BIAS * ((v - 1/2) * 2)), WEIGHT_BIAS)
              | none => ((0 : ℚ), (0 : ℚ)))
            else ((0 : ℚ), (0 : ℚ))) = (0, 0)
        by_cases hf : b.flagged = true
        · rw [if_pos hf]
          rcases hsc : b.score with _ | v
          · rfl
          · exact absurd ⟨hf, by rw [hsc]; rfl⟩ h
        · rw [if_neg hf]
      rw [if_neg h, hz]
      simp

theorem cohSeg_sum (n : NlpResults) :
    (((match n.coherence_score with
       | none => []
       | some _ => [cohDelta n]).map Prod.fst).sum = (cohDelta n).1) ∧
    (((match n.coherence_score with
       | none => []
       | some _ => [cohDelta n]).map Prod.snd).sum = (cohDelta n).2) := by
  rcases hc : n.coherence_score with _ | c
  · have hz : cohDelta n = (0, 0) := by unfold cohDelta; rw [hc]
    rw [hz]
    simp
  · simp

theorem contribution_sums (r : RuleResults) (n : NlpResults) :
    ((contributionList r n).map Prod.fst).sum =
      (repDelta r).1 + (ageDelta r).1 + (lingDelta r).1 + (sensDelta r).1 +
        (sentDelta n).1 + (biasDelta n).1 + (cohDelta n).1 ∧
    ((contributionList r n).map Prod.snd).sum =
      (repDelta r).2 + (ageDelta r).2 + (lingDelta r).2 + (sensDelta r).2 +
        (sentDelta n).2 + (biasDelta n).2 + (cohDelta n).2 := by
  unfold contributionList
  constructor
  · simp only [List.map_append, List.sum_append,
      (repSeg_sum r).1, (ageSeg_sum r).1, (lingSeg_sum r).1, (sensSeg_sum r).1,
      (sentSeg_sum n).1, (biasSeg_sum n).1, (cohSeg_sum n).1]
  · simp only [List.map_append, List.sum_append,
      (repSeg_sum r).2, (ageSeg_sum r).2, (lingSeg_sum r).2, (sensSeg_sum r).2,
      (sentSeg_sum n).2, (biasSeg_sum n).2, (cohSeg_sum n).2]

theorem deltas_snd_nonneg (r : RuleResults) (n : NlpResults) :
    0 ≤ (repDelta r).2 ∧ 0 ≤ (ageDelta r).2 ∧ 0 ≤ (lingDelta r).2 ∧
    0 ≤ (sensDelta r).2 ∧ 0 ≤ (sentDelta n).2 ∧ 0 ≤ (biasDelta n).2 ∧
    0 ≤ (cohDelta n).2 := by
  refine ⟨?_, ?_, ?_, ?_, ?_, ?_, ?_⟩
  · unfold repDelta WEIGHT_REPUTATION
    split_ifs <;> norm_num
  · unfold ageDelta
    rcases r.source_analysis.domain_age_days with _ | age
    · norm_num
    · show (0 : ℚ) ≤ (if 365 * 2 < age then (WEIGHT_AGE, WEIGHT_AGE)
        else if age < 90 then (-WEIGHT_AGE, WEIGHT_AGE) else ((0 : ℚ), (0 : ℚ))).2
      unfold WEIGHT_AGE
      split_ifs <;> norm_num
  · unfold lingDelta
    show (0 : ℚ) ≤ (if 0 < r.linguistic_markers.certainty ∧ r.linguistic_markers.doubt = 0
        then (WEIGHT_CERTAINTY * r.linguistic_markers.certainty,
          WEIGHT_CERTAINTY * r.linguistic_markers.certainty)
        else if 0 < r.linguistic_markers.doubt
        then (-(WEIGHT_DOUBT * r.linguistic_markers.doubt),
          WEIGHT_DOUBT * r.linguistic_markers.doubt)
        else ((0 : ℚ), (0 : ℚ))).2
    unfold WEIGHT_CERTAINTY WEIGHT_DOUBT
    split_ifs <;> positivity
  · unfold sensDelta
    show (0 : ℚ) ≤ (if 0 < r.linguistic_markers.sensationalism
        then (-(min (WEIGHT_SENSATIONALISM * r.linguistic_markers.sensationalism)
          (WEIGHT_SENSATIONALISM * 3)),
          min (WEIGHT_SENSATIONALISM * r.linguistic_markers.sensationalism)
          (WEIGHT_SENSATIONALISM * 3))
        else ((0 : ℚ), (0 : ℚ))).2
    unfold WEIGHT_SENSATIONALISM
    split_ifs
    · exact le_min (by positivity) (by norm_num)
    · norm_num
  · unfold sentDelta
    rcases n.sentiment with _ | s
    · norm_num
    · show (0 : ℚ) ≤ (if s.label = SentimentLabel.negative ∧ 17/20 < s.score
        then (-WEIGHT_NEGATIVE_SENTIMENT, WEIGHT_NEGATIVE_SENTIMENT)
        else ((0 : ℚ), (0 : ℚ))).2
      unfold WEIGHT_NEGATIVE_SENTIMENT
      split_ifs <;> norm_num
  · unfold biasDelta
    rcases n.bias_analysis with _ | b
    · norm_num
    · show (0 : ℚ) ≤ (if b.flagged = true
        then (match b.score with
          | some v => (-(WEIGHT_BIAS * ((v - 1/2) * 2)), WEIGHT_BIAS)
          | none => ((0 : ℚ), (0 : ℚ)))
        else ((0 : ℚ), (0 : ℚ))).2
      unfold WEIGHT_BIAS
      split_ifs
      · rcases b.score with _ | v <;> norm_num
      · norm_num
  · unfold cohDelta
    rcases n.coherence_score with _ | c
    · norm_num
    · exact abs_nonneg _

/-- C1 (amended): `calculate_overall_score` equals
`clamp(0.5 + Σ(adjustments) / (1 + Σ(weights)))` where the sums range
over the contributing (present) signals only — absent signals contribute
neither adjustment nor weight — but the running `weight_sum` is
*initialized to 1.0*, not 0, so the denominator is `1 + Σ(weights)`; the
`weight_sum > 0` guard is therefore always true, and with zero present
signals the final score is exactly 0.5. -/
theorem calculate_overall_score_characterization (r : RuleResults) (n : NlpResults) :
    calculate_overall_score r n =
      clamp01 (1/2 + ((contributionList r n).map Prod.fst).sum /
        (1 + ((contributionList r n).map Prod.snd).sum)) ∧
    (contributionList r n = [] → calculate_overall_score r n = 1/2) := by
  have hs := contribution_sums r n
  have hn := deltas_snd_nonneg r n
  have hmain : calculate_overall_score r n =
      clamp01 (1/2 + ((contributionList r n).map Prod.fst).sum /
        (1 + ((contributionList r n).map Prod.snd).sum)) := by
    unfold calculate_overall_score clamp01
    dsimp only
    rw [hs.1, hs.2]
    rw [if_pos (by obtain ⟨h1, h2, h3, h4, h5, h6, h7⟩ := hn; linarith)]
  refine ⟨hmain, ?_⟩
  intro hempty
  rw [hmain, hempty]
  norm_num [clamp01]

/-- Witness for C1 at a concrete input: with no present signal the
contribution list is empty and the score is exactly 0.5. -/
theorem calculate_overall_score_characterization_witness :
    calculate_overall_score ⟨⟨.unknown, none⟩, ⟨0, 0, 0⟩⟩ ⟨none, none, none⟩ = 1/2 :=
  (calculate_overall_score_characterization ⟨⟨.unknown, none⟩, ⟨0, 0, 0⟩⟩
    ⟨none, none, none⟩).2 (by with_unfolding_all decide)

/-- C1 counterexample: one present signal (High reputation).  The code
divides the +0.3 adjustment by the 1.0-initialized weight sum 1.3 and
returns 19/26 ≈ 0.731; the claim's formula — weight_sum exactly the sum
of contributing weights — gives 0.5 + 0.3/0.3 = 1.5, clamped to 1. -/
theorem calculate_overall_score_ne_claimed :
    calculate_overall_score ⟨⟨.high, none⟩, ⟨0, 0, 0⟩⟩ ⟨none, none, none⟩ = 19/26 ∧
    claimedOverallScore ⟨⟨.high, none⟩, ⟨0, 0, 0⟩⟩ ⟨none, none, none⟩ = 1 ∧
    calculate_overall_score ⟨⟨.high, none⟩, ⟨0, 0, 0⟩⟩ ⟨none, none, none⟩ ≠
      claimedOverallScore ⟨⟨.high, none⟩, ⟨0, 0, 0⟩⟩ ⟨none, none, none⟩ := by
  with_unfolding_all decide

/-- C3: `compute_context_score` combines the signals exactly as the spec
says: `0.7·history + 0.3·pattern` when both exist, the single available
score when exactly one exists, and 0.5 with confidence 0 when neither
exists; confidence saturates at `min(1, history_count/5)` (resp.
`min(1, similar_count/3)`), down-weighted ×0.8 when only history
contributes and ×0.5 when only the pattern signal contributes. -/
theorem compute_context_score_spec (g : GraphOracle) (domain : List Char)
    (keywords : List (List Char)) :
    (((GraphRAG.compute_context_score g domain keywords).has_history = true ∧
        0 < (GraphRAG.compute_context_score g domain keywords).similar_count) →
      (GraphRAG.compute_context_score g domain keywords).combined_score =
        7/10 * (GraphRAG.compute_context_score g domain keywords).history_score +
        3/10 * (GraphRAG.compute_context_score g domain keywords).pattern_score) ∧
    (((GraphRAG.compute_context_score g domain keywords).has_history = true ∧
        (GraphRAG.compute_context_score g domain keywords).similar_count = 0) →
      (GraphRAG.compute_context_score g domain keywords).combined_score =
        (GraphRAG.compute_context_score g domain keywords).history_score ∧
      (GraphRAG.compute_context_score g domain keywords).confidence =
        min 1 (((GraphRAG.compute_context_score g domain keywords).history_count : ℚ) / 5)
          * (4/5)) ∧
    (((GraphRAG.compute_context_score g domain keywords).has_history = false ∧
        0 < (GraphRAG.compute_context_score g domain keywords).similar_count) →
      (GraphRAG.compute_context_score g domain keywords).combined_score =
        (GraphRAG.compute_context_score g domain keywords).pattern_score ∧
      (GraphRAG.compute_context_score g domain keywords).confidence =
        min 1 (((GraphRAG.compute_context_score g domain keywords).similar_count : ℚ) / 3)
          * (1/2)) ∧
    (((GraphRAG.compute_context_score g domain keywords).has_history = false ∧
        (GraphRAG.compute_context_score g domain keywords).similar_count = 0) →
      (GraphRAG.compute_context_score g domain keywords).combined_score = 1/2 ∧
      (GraphRAG.compute_context_score g domain keywords).confidence = 0) := by
  unfold GraphRAG.compute_context_score
  dsimp only
  split_ifs <;>
    refine ⟨?_, ?_, ?_, ?_⟩ <;> intro hh <;> simp_all

/-- Witness for C3 at a concrete input: an oracle with two history
reports (average 0.7) and one similar claim (score 0.5) gives the
0.7/0.3 combination 0.64. -/
theorem compute_context_score_spec_witness :
    (GraphRAG.compute_context_score
        ⟨fun _ => [4/5, 3/5], fun _ => [1/2]⟩ ("example.com".toList)
        [("news".toList)]).combined_score =
      7/10 * (GraphRAG.compute_context_score
        ⟨fun _ => [4/5, 3/5], fun _ => [1/2]⟩ ("example.com".toList)
        [("news".toList)]).history_score +
      3/10 * (GraphRAG.compute_context_score
        ⟨fun _ => [4/5, 3/5], fun _ => [1/2]⟩ ("example.com".toList)
        [("news".toList)]).pattern_score :=
  (compute_context_score_spec ⟨fun _ => [4/5, 3/5], fun _ => [1/2]⟩
    ("example.com".toList) [("news".toList)]).1 (by with_unfolding_all decide)

theorem replaceChar_cons (p : Char) (rep : List Char) (c : Char) (s : List Char) :
    replaceChar p rep (c :: s) = (if c = p then rep else [c]) ++ replaceChar p rep s := by
  simp [replaceChar]

theorem replaceChar_append (p : Char) (rep a b : List Char) :
    replaceChar p rep (a ++ b) = replaceChar p rep a ++ replaceChar p rep b := by
  simp [replaceChar]

theorem escape_sixpass (s : List Char) :
    replaceChar '\t' [bsChar, 't'] (replaceChar '\r' [bsChar, 'r'] (replaceChar '\n'
      [bsChar, 'n'] (replaceChar apoChar [bsChar, apoChar] (replaceChar quoteChar
      [bsChar, quoteChar] (replaceChar bsChar [bsChar, bsChar] s))))) =
    (s.map escCharModel).flatten := by
  induction s with
  | nil => rfl
  | cons c cs ih =>
    rw [replaceChar_cons, replaceChar_append, replaceChar_append, replaceChar_append,
      replaceChar_append, replaceChar_append, List.map_cons, List.flatten_cons, ih]
    congr 1
    by_cases h1 : c = bsChar
    · subst h1; rfl
    by_cases h2 : c = quoteChar
    · subst h2
      simp [h1, replaceChar, escCharModel]
      decide
    by_cases h3 : c = apoChar
    · subst h3
      simp [h1, h2, replaceChar, escCharModel]
      decide
    by_cases h4 : c = '\n'
    · subst h4
      simp [h1, h2, h3, replaceChar, escCharModel]
      decide
    by_cases h5 : c = '\r'
    · subst h5
      simp [h1, h2, h3, h4, replaceChar, escCharModel]
      decide
    by_cases h6 : c = '\t'
    · subst h6
      simp [h1, h2, h3, h4, h5, replaceChar, escCharModel]
    simp [h1, h2, h3, h4, h5, h6, replaceChar, escCharModel]

theorem escape_eq_flatten (s : List Char) :
    GraphRAG.escape_sparql_string s = (s.map escCharModel).flatten := by
  unfold GraphRAG.escape_sparql_string
  by_cases h : s.isEmpty
  · rw [if_pos h]
    rw [List.isEmpty_iff] at h
    subst h
    rfl
  · rw [if_neg h]
    exact escape_sixpass s

theorem quoteSafeChunk_flatten_esc (s : List Char) :
    quoteSafeChunk ((s.map escCharModel).flatten) = true := by
  induction s with
  | nil => rfl
  | cons c cs ih =>
    rw [List.map_cons, List.flatten_cons]
    by_cases h1 : c = bsChar
    · subst h1
      exact (show quoteSafeChunk (escCharModel bsChar ++ (cs.map escCharModel).flatten) =
        quoteSafeChunk ((cs.map escCharModel).flatten) from rfl).trans ih
    by_cases h2 : c = quoteChar
    · subst h2
      exact (show quoteSafeChunk (escCharModel quoteChar ++ (cs.map escCharModel).flatten) =
        quoteSafeChunk ((cs.map escCharModel).flatten) from rfl).trans ih
    by_cases h3 : c = apoChar
    · subst h3
      exact (show quoteSafeChunk (escCharModel apoChar ++ (cs.map escCharModel).flatten) =
        quoteSafeChunk ((cs.map escCharModel).flatten) from rfl).trans ih
    by_cases h4 : c = '\n'
    · subst h4
      exact (show quoteSafeChunk (escCharModel '\n' ++ (cs.map escCharModel).flatten) =
        quoteSafeChunk ((cs.map escCharModel).flatten) from rfl).trans ih
    by_cases h5 : c = '\r'
    · subst h5
      exact (show quoteSafeChunk (escCharModel '\r' ++ (cs.map escCharModel).flatten) =
        quoteSafeChunk ((cs.map escCharModel).flatten) from rfl).trans ih
    by_cases h6 : c = '\t'
    · subst h6
      exact (show quoteSafeChunk (escCharModel '\t' ++ (cs.map escCharModel).flatten) =
        quoteSafeChunk ((cs.map escCharModel).flatten) from rfl).trans ih
    have hesc : escCharModel c = [c] := by
      simp [escCharModel, h1, h2, h3, h4, h5, h6]
    rw [hesc, List.singleton_append]
    unfold quoteSafeChunk
    rw [if_neg h1, if_neg h2]
    exact ih

/-- C4: the current `_escape_sparql_string` makes every caller-supplied
string safe to interpolate inside a double-quoted SPARQL literal (no
unescaped quote survives escaping), and the src/src query builder
interpolates only the escaped domain; but the retained
`02_Code/SysCRED_v2.1_Update` version of `_get_source_history`
interpolates the raw domain — a domain containing a double quote is
embedded verbatim, breaking out of the quoted literal. -/
theorem sparql_escape_mandatory_violated_in_v21 :
    (∀ s : List Char, quoteSafeChunk (GraphRAG.escape_sparql_string s) = true) ∧
    quoteSafeChunk ['e', 'v', 'i', 'l', quoteChar] = false ∧
    GraphRAG.buildHistoryQueryV21 ['e', 'v', 'i', 'l', quoteChar] =
      sparqlHistoryHeadV21 ++ ['e', 'v', 'i', 'l', quoteChar] ++ sparqlHistoryTailV21 ∧
    GraphRAG.buildHistoryQuery ['e', 'v', 'i', 'l', quoteChar] =
      sparqlHistoryHead ++ GraphRAG.escape_sparql_string ['e', 'v', 'i', 'l', quoteChar] ++
        sparqlHistoryTail := by
  refine ⟨?_, by decide, rfl, rfl⟩
  intro s
  rw [escape_eq_flatten]
  exact quoteSafeChunk_flatten_esc s

theorem pad6_no_ws (m : ℕ) : ∀ c ∈ pad6 m, isWsChar c = false := by
  intro c hc
  simp only [pad6, List.mem_map] at hc
  obtain ⟨d, hd, rfl⟩ := hc
  rcases List.mem_append.mp hd with h | h
  · have : d = 0 := List.eq_of_mem_replicate h
    subst this
    rfl
  · exact isWsChar_digitChar d (natDigits_lt_ten m [] (by simp) d h)

theorem fmtFixed6_no_ws (x : ℚ) : ∀ c ∈ fmtFixed6 x, isWsChar c = false := by
  intro c hc
  unfold fmtFixed6 at hc
  rcases List.mem_append.mp hc with h | h
  · rcases List.mem_append.mp h with h2 | h2
    · split at h2
      · have : c = '-' := by simpa using h2
        subst this
        rfl
      · simp at h2
    · exact fmtNat_no_ws _ c h2
  · rcases List.mem_cons.mp h with rfl | h2
    · rfl
    · exact pad6_no_ws _ c h2

theorem fmtFixed6_ne_nil (x : ℚ) : fmtFixed6 x ≠ [] := by
  unfold fmtFixed6
  simp

theorem splitWs_joinSpace (toks : List (List Char)) (hne : toks ≠ [])
    (htoks : ∀ t ∈ toks, t ≠ [] ∧ ∀ c ∈ t, isWsChar c = false) :
    splitWs (joinSpace toks) = toks := by
  induction toks with
  | nil => exact absurd rfl hne
  | cons t ts ih =>
    cases ts with
    | nil =>
      show splitWs t = [t]
      have ht := htoks t (List.mem_cons_self t [])
      unfold splitWs
      rw [splitWsAux_final t ht.2 []]
      simp [ht.1]
    | cons t2 ts2 =>
      show splitWs (t ++ ' ' :: joinSpace (t2 :: ts2)) = t :: t2 :: ts2
      have ht := htoks t (List.mem_cons_self t (t2 :: ts2))
      unfold splitWs
      rw [splitWsAux_token t ht.2 [] _]
      rw [if_neg (by simpa using ht.1)]
      have := ih (by simp) (fun x hx => htoks x (List.mem_cons_of_mem t hx))
      unfold splitWs at this
      rw [this]
      simp

theorem parse_formatRunLine (topic doc tag : List Char) (rank : ℕ) (score : ℚ)
    (htopic : topic ≠ [] ∧ ∀ c ∈ topic, isWsChar c = false)
    (hdoc : doc ≠ [] ∧ ∀ c ∈ doc, isWsChar c = false)
    (htag : tag ≠ [] ∧ ∀ c ∈ tag, isWsChar c = false) :
    parseQrelLine (formatRunLine topic doc rank score tag) =
      some ⟨topic, doc, rank⟩ := by
  have hline : formatRunLine topic doc rank score tag =
      joinSpace [topic, ['Q', '0'], doc, fmtNat rank, fmtFixed6 score, tag] := rfl
  have hsplit : splitWs (formatRunLine topic doc rank score tag) =
      [topic, ['Q', '0'], doc, fmtNat rank, fmtFixed6 score, tag] := by
    rw [hline]
    refine splitWs_joinSpace _ (by simp) ?_
    intro t ht
    simp only [List.mem_cons, List.not_mem_nil, or_false] at ht
    rcases ht with rfl | rfl | rfl | rfl | rfl | rfl
    · exact htopic
    · exact ⟨by simp, by decide⟩
    · exact hdoc
    · exact ⟨fmtNat_ne_nil rank, fmtNat_no_ws rank⟩
    · exact ⟨fmtFixed6_ne_nil score, fmtFixed6_no_ws score⟩
    · exact htag
  unfold parseQrelLine
  rw [splitWs_pyStrip, hsplit]
  rw [if_pos (by simp)]
  simp only [List.getD]
  norm_num [parseNat_fmtNat]

/-- C8 (amended): writing an evidence as the run-file line
`"<topic> Q0 <doc> <rank> <score:.6f> <tag>"` and re-parsing it with the
qrel-style whitespace parser recovers `(topic_id, doc_id, rank)` exactly,
with the rank stored in the parser's relevance field, for any
whitespace-free, nonempty topic, doc and tag; the 6-decimal score text is
written but the qrel parser discards it. -/
theorem run_line_qrel_roundtrip (topic doc tag : List Char) (rank : ℕ) (score : ℚ)
    (htopic : topic ≠ [] ∧ ∀ c ∈ topic, isWsChar c = false)
    (hdoc : doc ≠ [] ∧ ∀ c ∈ doc, isWsChar c = false)
    (htag : tag ≠ [] ∧ ∀ c ∈ tag, isWsChar c = false) :
    parseQrelLine (formatRunLine topic doc rank score tag) =
      some ⟨topic, doc, rank⟩ :=
  parse_formatRunLine topic doc tag rank score htopic hdoc htag

/-- Witness for C8 at a concrete input: topic T1, doc D1, rank 3, score
1/2, tag run1 parse back to exactly (T1, D1, 3). -/
theorem run_line_qrel_roundtrip_witness :
    parseQrelLine (formatRunLine ("T1".toList) ("D1".toList) 3 (1/2)
      ("run1".toList)) = some ⟨"T1".toList, "D1".toList, 3⟩ :=
  run_line_qrel_roundtrip ("T1".toList) ("D1".toList) ("run1".toList) 3 (1/2)
    ⟨by decide, by decide⟩ ⟨by decide, by decide⟩ ⟨by decide, by decide⟩

/-- C8 counterexample: the qrel-style parser does not recover the score —
two run lines that differ only in their score (1/3 vs 2/3) parse to the
same qrel entry, so no reading of the parse output can return the
original `(topic_id, doc_id, rank, score)` tuple. -/
theorem qrel_parse_drops_score :
    parseQrelLine (formatRunLine ("T1".toList) ("D1".toList) 1 (1/3)
        ("run1".toList)) =
      parseQrelLine (formatRunLine ("T1".toList) ("D1".toList) 1 (2/3)
        ("run1".toList)) ∧
    (1/3 : ℚ) ≠ 2/3 := by
  constructor
  · rw [parse_formatRunLine ("T1".toList) ("D1".toList) ("run1".toList) 1 (1/3)
      ⟨by decide, by decide⟩ ⟨by decide, by decide⟩ ⟨by decide, by decide⟩,
      parse_formatRunLine ("T1".toList) ("D1".toList) ("run1".toList) 1 (2/3)
      ⟨by decide, by decide⟩ ⟨by decide, by decide⟩ ⟨by decide, by decide⟩]
  · norm_num

/-- C9: `verify_information` returns the error dictionary — without
raising and without computing any credibility score or report — for every
input that is not a string, every string that is empty or whitespace-only
after stripping, and every input whose analyzed text becomes empty after
preprocessing (both for direct text and for fetched URL content). -/
theorem verify_information_error_paths
    (fetch : List Char → Option (List Char)) (nlp : List Char → NlpResults) :
    (verify_information fetch nlp .notStr).isError = true ∧
    (∀ s : List Char, pyStrip s = [] →
      (verify_information fetch nlp (.str s)).isError = true) ∧
    (∀ s : List Char, pyStrip s ≠ [] → is_url s = false →
      CredibilityVerificationSystem.preprocess s = [] →
      (verify_information fetch nlp (.str s)).isError = true) ∧
    (∀ s t : List Char, pyStrip s ≠ [] → is_url s = true → fetch s = some t →
      CredibilityVerificationSystem.preprocess t = [] →
      (verify_information fetch nlp (.str s)).isError = true) := by
  refine ⟨rfl, ?_, ?_, ?_⟩
  · intro s h
    simp [verify_information, VerifyOutcome.isError, h]
  · intro s h1 h2 h3
    simp [verify_information, VerifyOutcome.isError, h1, h2, h3]
  · intro s t h1 h2 h3 h4
    simp [verify_information, VerifyOutcome.isError, h1, h2, h3, h4]

/-- Witness for C9 at concrete inputs: a non-string, a whitespace-only
string, a string of symbols that preprocesses to empty, and a URL whose
fetched content preprocesses to empty all yield the error outcome. -/
theorem verify_information_error_paths_witness :
    (verify_information (fun _ => some ("   ".toList)) (fun _ => ⟨none, none, none⟩)
      .notStr).isError = true ∧
    (verify_information (fun _ => some ("   ".toList)) (fun _ => ⟨none, none, none⟩)
      (.str ("  ".toList))).isError = true ∧
    (verify_information (fun _ => some ("   ".toList)) (fun _ => ⟨none, none, none⟩)
      (.str ("@@@".toList))).isError = true ∧
    (verify_information (fun _ => some ("   ".toList)) (fun _ => ⟨none, none, none⟩)
      (.str ("http://x.com".toList))).isError = true := by
  refine ⟨(verify_information_error_paths _ _).1, ?_, ?_, ?_⟩
  · exact (verify_information_error_paths _ _).2.1 ("  ".toList) (by decide)
  · exact (verify_information_error_paths _ _).2.2.1 ("@@@".toList) (by decide)
      (by decide) (by decide)
  · exact (verify_information_error_paths _ _).2.2.2 ("http://x.com".toList)
      ("   ".toList) (by decide) (by decide) rfl (by decide)

end SysCred
